import Mathlib

/-!
Shallow embedding of the dhikr-counter pinch-event detectors
(src/analyze_session.py and src/tkeo_pinch_detector.py) and proofs about
their specified properties.

Modelling conventions.
Python floats are modelled as exact rationals; an IEEE NaN is modelled by
the value none of the type FVal below, and float operations propagate
none the way numpy propagates NaN.  Square roots of rationals are in
general irrational, so every place the source calls np.sqrt on derived
data is abstracted by an explicit function parameter or by taking the
already-rooted signal as the input of the definition; properties are then
quantified over that parameter, which covers the concrete square root as
one instance.  Python round is round-half-to-even, modelled by pyround;
int() truncation is modelled by pytrunc.  numpy/pandas rolling windows,
medians and MADs are reproduced exactly (pandas median of an even-sized
window is the mean of the two middle values, min_periods counts the
non-NaN observations of a window, rolling.apply sees the raw window
including NaNs while rolling.mean and rolling.median skip NaNs).
-/

/-- A python/numpy float value: some q for a finite value, none for NaN. -/
abbrev FVal := Option ℚ

namespace FVal

/-- Addition with NaN propagation. -/
def add (a b : FVal) : FVal :=
  match a, b with
  | some x, some y => some (x + y)
  | _, _ => none

/-- Subtraction with NaN propagation. -/
def sub (a b : FVal) : FVal :=
  match a, b with
  | some x, some y => some (x - y)
  | _, _ => none

/-- Multiplication with NaN propagation. -/
def mul (a b : FVal) : FVal :=
  match a, b with
  | some x, some y => some (x * y)
  | _, _ => none

/-- Division with NaN propagation (division by zero never reached here). -/
def div (a b : FVal) : FVal :=
  match a, b with
  | some x, some y => some (x / y)
  | _, _ => none

/-- numpy maximum of a value and 0, NaN propagating. -/
def clamp0 (a : FVal) : FVal := a.map (fun x => max x 0)

/-- Squaring, NaN propagating. -/
def sq (a : FVal) : FVal := a.map (fun x => x * x)

/-- Absolute value, NaN propagating. -/
def abs (a : FVal) : FVal := a.map (fun x => |x|)

/-- The boolean comparison a > b as IEEE floats: false whenever a NaN is
involved.  This is the comparison numpy uses in score > threshold. -/
def gtb (a b : FVal) : Bool :=
  match a, b with
  | some x, some y => decide (y < x)
  | _, _ => false

/-- The boolean comparison a < b as IEEE floats: false on NaN. -/
def ltb (a b : FVal) : Bool :=
  match a, b with
  | some x, some y => decide (x < y)
  | _, _ => false

/-- The boolean comparison a >= b as IEEE floats: false on NaN. -/
def geb (a b : FVal) : Bool :=
  match a, b with
  | some x, some y => decide (y ≤ x)
  | _, _ => false

end FVal

/-- Python round: round half to even (banker's rounding), as used by
int(round(x)) throughout the source. -/
def pyround (q : ℚ) : ℤ :=
  let f := ⌊q⌋
  let r := q - f
  if r < 1/2 then f
  else if 1/2 < r then f + 1
  else if Even f then f else f + 1

/-- Python int() applied to a float: truncation toward zero. -/
def pytrunc (q : ℚ) : ℤ :=
  if 0 ≤ q then ⌊q⌋ else -⌊-q⌋

/-- Insertion into a sorted list of rationals. -/
def insertQ (a : ℚ) : List ℚ → List ℚ
  | [] => [a]
  | b :: l => if a ≤ b then a :: b :: l else b :: insertQ a l

/-- Insertion sort for rationals (used to compute medians). -/
def sortQ (l : List ℚ) : List ℚ := l.foldr insertQ []

/-- np.median of a nonempty list: middle element for odd length, mean of
the two middle elements for even length.  Returns 0 on the empty list
(never reached from the detector code paths modelled here). -/
def medianQ (l : List ℚ) : ℚ :=
  let s := sortQ l
  let n := s.length
  if n = 0 then 0
  else if n % 2 = 1 then s.getD (n / 2) 0
  else (s.getD (n / 2 - 1) 0 + s.getD (n / 2) 0) / 2

/-- Median absolute deviation: median(|v - median(v)|). -/
def madQ (l : List ℚ) : ℚ := medianQ (l.map (fun v => |v - medianQ l|))

/-- Python slice l[a:b] of a list. -/
def sliceL {α : Type} (l : List α) (a b : ℕ) : List α :=
  (l.drop a).take (b - a)

/-! ## TKEOOperator.compute_tkeo (src/tkeo_pinch_detector.py, lines 65-92)

For len(x) < 3 the source returns np.zeros_like(x).  Otherwise it sets
tkeo[0] = x[0]^2, tkeo[-1] = x[-1]^2, tkeo[1:-1] = x[1:-1]^2 - x[:-2]*x[2:]
and clamps the whole array to be non-negative. -/

/-- Interior TKEO values before clamping: psi[i+1] = x[i+1]^2 - x[i]*x[i+2]
for the original indexing; defined on three sliding elements. -/
def tkeoInterior : List ℚ → List ℚ
  | a :: b :: c :: rest => (b * b - a * c) :: tkeoInterior (b :: c :: rest)
  | _ => []

/-- TKEOOperator.compute_tkeo.  Mirrors the source: zeros for lists
shorter than 3, otherwise boundary squares, interior psi values, and a
final clamp of every entry to be at least 0. -/
def compute_tkeo (x : List ℚ) : List ℚ :=
  if x.length < 3 then x.map (fun _ => 0)
  else
    (x.headD 0 * x.headD 0 :: tkeoInterior x ++ [x.getLastD 0 * x.getLastD 0]).map
      (fun v => max v 0)

theorem tkeoInterior_length (x : List ℚ) : (tkeoInterior x).length = x.length - 2 := by
  induction x with
  | nil => simp [tkeoInterior]
  | cons a l ih =>
    match l with
    | [] => simp [tkeoInterior]
    | [b] => simp [tkeoInterior]
    | b :: c :: rest =>
      simp only [tkeoInterior, List.length_cons] at ih ⊢
      omega

theorem getD_map_of_lt (l : List ℚ) (f : ℚ → ℚ) (j : ℕ) (h : j < l.length) :
    (l.map f).getD j 0 = f (l.getD j 0) := by
  rw [List.getD_eq_getElem _ _ (by simpa using h), List.getD_eq_getElem _ _ h]
  simp

theorem tkeoInterior_getD (x : List ℚ) (i : ℕ) (h : i + 2 < x.length) :
    (tkeoInterior x).getD i 0 =
      x.getD (i+1) 0 * x.getD (i+1) 0 - x.getD i 0 * x.getD (i+2) 0 := by
  induction x generalizing i with
  | nil => simp at h
  | cons a l ih =>
    cases l with
    | nil => simp at h
    | cons b l' =>
      cases l' with
      | nil => simp at h
      | cons c rest =>
        cases i with
        | zero => simp [tkeoInterior]
        | succ j =>
          have h2 : j + 2 < (b :: c :: rest).length := by
            simp at h ⊢; omega
          simpa [tkeoInterior] using ih j h2

theorem compute_tkeo_length (x : List ℚ) : (compute_tkeo x).length = x.length := by
  unfold compute_tkeo
  split
  · simp
  · rename_i hlen
    simp only [List.length_map, List.length_cons, List.length_append,
      tkeoInterior_length, List.length_nil]
    omega

theorem compute_tkeo_nonneg (x : List ℚ) : ∀ v ∈ compute_tkeo x, 0 ≤ v := by
  unfold compute_tkeo
  split
  · intro v hv
    rcases List.mem_map.mp hv with ⟨w, _, rfl⟩
    exact le_rfl
  · intro v hv
    rcases List.mem_map.mp hv with ⟨w, _, rfl⟩
    exact le_max_right _ _

/-- C5: the claim asserts psi[0] = x[0]^2 for every finite sequence, but
compute_tkeo returns an all-zero array for inputs shorter than 3 samples:
at x = [2] the output is [0], not [4]. -/
theorem C5_counterexample :
    compute_tkeo [(2:ℚ)] = [0] ∧ (compute_tkeo [(2:ℚ)]).getD 0 0 ≠ 2 * 2 := by
  have h : compute_tkeo [(2:ℚ)] = [0] := rfl
  refine ⟨h, ?_⟩
  rw [h]
  norm_num

/-- C5 amended: compute_tkeo always returns a sequence of the input's
length with every value non-negative; for inputs of length at least 3 the
first and last outputs are the squares of the first and last inputs and
every interior output is x[i]^2 - x[i-1]*x[i+1] clamped to be at least 0;
for inputs shorter than 3 the output is identically zero. -/
theorem C5_tkeo_amended (x : List ℚ) :
    (compute_tkeo x).length = x.length ∧
    (∀ v ∈ compute_tkeo x, 0 ≤ v) ∧
    (x.length < 3 → compute_tkeo x = x.map (fun _ => 0)) ∧
    (3 ≤ x.length →
      (compute_tkeo x).getD 0 0 = x.getD 0 0 * x.getD 0 0 ∧
      (compute_tkeo x).getLastD 0 = x.getLastD 0 * x.getLastD 0 ∧
      (∀ i, 0 < i → i + 1 < x.length →
        (compute_tkeo x).getD i 0 =
          max (x.getD i 0 * x.getD i 0 - x.getD (i-1) 0 * x.getD (i+1) 0) 0)) := by
  refine ⟨compute_tkeo_length x, compute_tkeo_nonneg x, ?_, ?_⟩
  · intro hlt
    unfold compute_tkeo
    rw [if_pos hlt]
  · intro h3
    have hnotlt : ¬ x.length < 3 := by omega
    have hx0 : x.getD 0 0 = x.headD 0 := by
      cases x with
      | nil => simp at h3
      | cons a l => simp
    have hform : compute_tkeo x =
        (fun v => max v 0) (x.headD 0 * x.headD 0) ::
          ((tkeoInterior x).map (fun v => max v 0) ++
            [(fun v => max v 0) (x.getLastD 0 * x.getLastD 0)]) := by
      unfold compute_tkeo
      rw [if_neg hnotlt]
      simp
    refine ⟨?_, ?_, ?_⟩
    · rw [hform]
      simp only [List.getD_cons_zero, hx0]
      exact max_eq_left (mul_self_nonneg _)
    · rw [hform]
      rw [show ((fun v => max v 0) (x.headD 0 * x.headD 0) ::
          ((tkeoInterior x).map (fun v => max v 0) ++
            [(fun v => max v 0) (x.getLastD 0 * x.getLastD 0)])) =
          ((fun v => max v 0) (x.headD 0 * x.headD 0) ::
          (tkeoInterior x).map (fun v => max v 0)) ++
            [(fun v => max v 0) (x.getLastD 0 * x.getLastD 0)] by simp]
      rw [List.getLastD_concat]
      exact max_eq_left (mul_self_nonneg _)
    · intro i hi hi1
      rw [hform]
      cases i with
      | zero => omega
      | succ j =>
        have hj : j < (tkeoInterior x).length := by
          rw [tkeoInterior_length]; omega
        have hj2 : j + 2 < x.length := by omega
        simp only [List.getD_cons_succ]
        rw [List.getD_append _ _ _ _ (by simpa using hj)]
        rw [getD_map_of_lt _ _ _ hj, tkeoInterior_getD x j hj2]
        have : j + 1 - 1 = j := by omega
        simp [this]

/-- Witness instantiating C5_tkeo_amended on a concrete input. -/
theorem C5_tkeo_amended_witness :
    (compute_tkeo [(1:ℚ), 3, 1]).getD 1 0 = max (3*3 - 1*1) 0 := by
  have h := (C5_tkeo_amended [(1:ℚ), 3, 1]).2.2.2 (by decide)
  simpa using h.2.2 1 (by decide) (by decide)

/-! ## StreamingBaselineTracker (src/analyze_session.py, lines 824-850)

Online baseline for the streaming detector.  It keeps no sample history:
mean and MAD are exponential moving averages, updated only when the new
value passes a Hampel outlier gate, and the threshold is
mean + k * 1.4826 * mad. -/

structure StreamingBaselineTracker where
  alpha : ℚ
  hampel_k : ℚ
  mean : ℚ
  mad : ℚ
  initialized : Bool

namespace StreamingBaselineTracker

/-- Constructor defaults: alpha = 1/1000, hampel_k = 3.0, mean = 0.0,
mad = 1.0, initialized = False. -/
def init : StreamingBaselineTracker :=
  { alpha := 1/1000, hampel_k := 3, mean := 0, mad := 1, initialized := false }

/-- StreamingBaselineTracker.update.  On the first sample, mean is set to
the value and mad to abs(value - mean) + 1e-6 (mean has just been set, so
this is 1e-6).  Afterwards mean and mad are EMA-updated only when the
value passes the Hampel gate; mad uses the already-updated mean. -/
def update (s : StreamingBaselineTracker) (value : ℚ) : StreamingBaselineTracker :=
  if s.initialized = false then
    let mean' := value
    { s with mean := mean', mad := |value - mean'| + 1e-6, initialized := true }
  else if |value - s.mean| ≤ s.hampel_k * s.mad then
    let mean' := (1 - s.alpha) * s.mean + s.alpha * value
    let mad' := (1 - s.alpha) * s.mad + s.alpha * |value - mean'|
    { s with mean := mean', mad := mad' }
  else s

/-- StreamingBaselineTracker.get_threshold. -/
def get_threshold (s : StreamingBaselineTracker) (k_mad : ℚ) : ℚ :=
  s.mean + k_mad * 1.4826 * s.mad

end StreamingBaselineTracker

/-! ## BaselineTracker (src/tkeo_pinch_detector.py, lines 120-166)

Baseline tracker of the two-stage detector: EMA mean behind a Hampel
gate, plus a history buffer of the last 1000 samples from which sigma is
recomputed as 1.4826 * MAD whenever the buffer length is divisible by
100 (and exceeds 10), floored at 1e-6. -/

structure BaselineTracker where
  alpha : ℚ
  hampel_k : ℚ
  mean : ℚ
  sigma : ℚ
  history : List ℚ
  initialized : Bool

namespace BaselineTracker

/-- Constructor: mean = 0.0, sigma = 1e-6, empty history,
history_size = 1000 (a fixed constant in the source). -/
def init (alpha hampel_k : ℚ) : BaselineTracker :=
  { alpha := alpha, hampel_k := hampel_k, mean := 0, sigma := 1e-6,
    history := [], initialized := false }

/-- BaselineTracker._update_sigma: only acts when more than 10 samples
are buffered; sets sigma to 1.4826 * MAD of the history, raised to 1e-6
if below that floor. -/
def updateSigma (s : BaselineTracker) : BaselineTracker :=
  if 10 < s.history.length then
    let sigma' := madQ s.history * 1.4826
    { s with sigma := if sigma' < 1e-6 then 1e-6 else sigma' }
  else s

/-- First half of BaselineTracker.update: initialize the mean on the
first sample, otherwise EMA-update it when the value passes the Hampel
gate. -/
def meanStep (s : BaselineTracker) (value : ℚ) : BaselineTracker :=
  if s.initialized = false then { s with mean := value, initialized := true }
  else if |value - s.mean| ≤ s.hampel_k * s.sigma then
    { s with mean := (1 - s.alpha) * s.mean + s.alpha * value }
  else s

/-- History push of BaselineTracker.update: append, then pop the oldest
entry when the buffer exceeds history_size = 1000. -/
def histStep (h : List ℚ) (value : ℚ) : List ℚ :=
  let hist := h ++ [value]
  if 1000 < hist.length then hist.tail else hist

/-- BaselineTracker.update: Hampel-gated mean update, history push with
eviction, and a sigma recompute when the resulting length is a multiple
of 100. -/
def update (s : BaselineTracker) (value : ℚ) : BaselineTracker :=
  let s1 := meanStep s value
  let s2 := { s1 with history := histStep s1.history value }
  if s2.history.length % 100 = 0 then s2.updateSigma else s2

/-- BaselineTracker.get_threshold. -/
def get_threshold (s : BaselineTracker) (k_multiplier : ℚ) : ℚ :=
  s.mean + k_multiplier * s.sigma

end BaselineTracker

/-! ## The baseline tracker model asserted by the claim (spec section 4.2)

Modelled from the spec: state with mean, sigma and a ring buffer of the
last 1000 samples; update(v) EMA-updates the mean behind a Hampel gate,
always pushes v, and every 100 samples recomputes
sigma = 1.4826 * median(|history - median(history)|) floored at 1e-6;
get_threshold(k) returns mean + k * sigma.  The spec leaves the initial
sigma open; we take 1e-6, the value the two-stage source initializes
with.  A counter of processed samples realizes "every 100 samples". -/

structure SpecTracker where
  alpha : ℚ
  hampel_k : ℚ
  mean : ℚ
  sigma : ℚ
  history : List ℚ
  count : ℕ
  initialized : Bool

namespace SpecTracker

/-- Initial spec-model state. -/
def init (alpha hampel_k : ℚ) : SpecTracker :=
  { alpha := alpha, hampel_k := hampel_k, mean := 0, sigma := 1e-6,
    history := [], count := 0, initialized := false }

/-- Spec-model mean update (step 1-2 of spec section 4.2). -/
def meanStep (s : SpecTracker) (v : ℚ) : SpecTracker :=
  if s.initialized = false then { s with mean := v, initialized := true }
  else if |v - s.mean| ≤ s.hampel_k * s.sigma then
    { s with mean := (1 - s.alpha) * s.mean + s.alpha * v }
  else s

/-- Spec-model update: steps 1-4 of spec section 4.2. -/
def update (s : SpecTracker) (v : ℚ) : SpecTracker :=
  let s1 := meanStep s v
  let hist := s1.history ++ [v]
  let s2 := { s1 with history := if 1000 < hist.length then hist.tail else hist,
                      count := s1.count + 1 }
  if s2.count % 100 = 0 then
    { s2 with sigma := max (1.4826 * madQ s2.history) 1e-6 }
  else s2

/-- Spec-model threshold. -/
def get_threshold (s : SpecTracker) (k : ℚ) : ℚ := s.mean + k * s.sigma

end SpecTracker

/-- C4: the claim asserts every tracker used by a detector buffers the
last 1000 samples and recomputes sigma only every 100 samples, but the
streaming detector's tracker keeps no buffer and EMA-updates its MAD on
every accepted sample: after feeding 0 twice (with the tracker's
constructor parameters alpha = 1/1000, hampel_k = 3), the streaming
tracker's threshold at k = 1 differs from the claimed model's. -/
theorem C4_counterexample :
    StreamingBaselineTracker.get_threshold
        (StreamingBaselineTracker.update
          (StreamingBaselineTracker.update StreamingBaselineTracker.init 0) 0) 1 ≠
      SpecTracker.get_threshold
        (SpecTracker.update (SpecTracker.update (SpecTracker.init (1/1000) 3) 0) 0) 1 := by
  have f1 : StreamingBaselineTracker.update StreamingBaselineTracker.init 0 =
      { alpha := 1/1000, hampel_k := 3, mean := 0, mad := 1/1000000,
        initialized := true } := by
    norm_num [StreamingBaselineTracker.update, StreamingBaselineTracker.init]
  have f2 : StreamingBaselineTracker.update
      { alpha := 1/1000, hampel_k := 3, mean := 0, mad := 1/1000000,
        initialized := true } 0 =
      { alpha := 1/1000, hampel_k := 3, mean := 0, mad := 999/1000000000,
        initialized := true } := by
    norm_num [StreamingBaselineTracker.update]
  have e1 : SpecTracker.update (SpecTracker.init (1/1000) 3) 0 =
      { alpha := 1/1000, hampel_k := 3, mean := 0, sigma := 1/1000000,
        history := [0], count := 1, initialized := true } := by
    norm_num [SpecTracker.update, SpecTracker.meanStep, SpecTracker.init]
  have e2 : SpecTracker.update
      { alpha := 1/1000, hampel_k := 3, mean := 0, sigma := 1/1000000,
        history := [0], count := 1, initialized := true } 0 =
      { alpha := 1/1000, hampel_k := 3, mean := 0, sigma := 1/1000000,
        history := [0, 0], count := 2, initialized := true } := by
    norm_num [SpecTracker.update, SpecTracker.meanStep]
  rw [f1, f2, e1, e2]
  norm_num [StreamingBaselineTracker.get_threshold, SpecTracker.get_threshold]

/-- C4 amended: the two-stage detector's BaselineTracker.update always
appends v to a history buffer capped at the last 1000 samples, and
recomputes sigma = 1.4826 * median(|history - median(history)|) floored
at 1e-6 exactly when the post-update buffer length is a multiple of 100
and exceeds 10 (hence on every sample once the buffer holds 1000), with
get_threshold(k) = mean + k * sigma.  The streaming detector's tracker
keeps no history buffer: its mean and MAD are Hampel-gated EMAs and
get_threshold(k) = mean + k * 1.4826 * mad. -/
theorem C4_tracker_amended (s : BaselineTracker) (v : ℚ)
    (r : StreamingBaselineTracker) (k : ℚ) :
    ((BaselineTracker.update s v).history.getLastD 0 = v) ∧
    ((BaselineTracker.update s v).history.length
        = if s.history.length + 1 ≤ 1000 then s.history.length + 1
          else s.history.length) ∧
    (s.history.length ≤ 1000 → (BaselineTracker.update s v).history.length ≤ 1000) ∧
    (((BaselineTracker.update s v).history.length % 100 = 0 ∧
        10 < (BaselineTracker.update s v).history.length) →
      (BaselineTracker.update s v).sigma =
        (if madQ (BaselineTracker.update s v).history * 1.4826 < 1e-6 then 1e-6
         else madQ (BaselineTracker.update s v).history * 1.4826)) ∧
    (¬ (BaselineTracker.update s v).history.length % 100 = 0 →
      (BaselineTracker.update s v).sigma = s.sigma) ∧
    (BaselineTracker.get_threshold s k = s.mean + k * s.sigma) ∧
    (StreamingBaselineTracker.get_threshold r k = r.mean + k * 1.4826 * r.mad) := by
  have hms : (BaselineTracker.meanStep s v).history = s.history := by
    unfold BaselineTracker.meanStep; split_ifs <;> rfl
  have hmsig : (BaselineTracker.meanStep s v).sigma = s.sigma := by
    unfold BaselineTracker.meanStep; split_ifs <;> rfl
  have hush : ∀ u : BaselineTracker, (BaselineTracker.updateSigma u).history = u.history := by
    intro u; unfold BaselineTracker.updateSigma; split_ifs <;> rfl
  have hhist : (BaselineTracker.update s v).history = BaselineTracker.histStep s.history v := by
    unfold BaselineTracker.update
    dsimp only
    split_ifs <;> simp [hush, hms]
  have hsig : (BaselineTracker.update s v).sigma =
      (if (BaselineTracker.update s v).history.length % 100 = 0 then
        (if 10 < (BaselineTracker.update s v).history.length then
          (if madQ (BaselineTracker.update s v).history * 1.4826 < 1e-6 then (1e-6 : ℚ)
           else madQ (BaselineTracker.update s v).history * 1.4826)
         else s.sigma)
       else s.sigma) := by
    have hh : (BaselineTracker.update s v).history =
        BaselineTracker.histStep (BaselineTracker.meanStep s v).history v := by
      unfold BaselineTracker.update
      dsimp only
      split_ifs <;> simp [hush]
    unfold BaselineTracker.update BaselineTracker.updateSigma
    dsimp only
    simp only [hms] at hh ⊢
    split_ifs with h1 h2 h3 <;> simp_all [hmsig, hms]
  have hcap : (BaselineTracker.histStep s.history v).length =
      (if s.history.length + 1 ≤ 1000 then s.history.length + 1 else s.history.length) := by
    unfold BaselineTracker.histStep
    dsimp only
    split_ifs with h1 h2 h3 <;> simp at h1 ⊢ <;> omega
  refine ⟨?_, ?_, ?_, ?_, ?_, rfl, rfl⟩
  · rw [hhist]
    unfold BaselineTracker.histStep
    dsimp only
    cases s.history with
    | nil => simp
    | cons a l =>
      split_ifs with h
      · show (l ++ [v]).getLastD 0 = v
        exact List.getLastD_concat _ _ _
      · show ((a :: l) ++ [v]).getLastD 0 = v
        exact List.getLastD_concat _ _ _
  · rw [hhist, hcap]
  · intro hle
    rw [hhist, hcap]
    split_ifs <;> omega
  · intro ⟨h100, h10⟩
    rw [hsig, if_pos h100, if_pos h10]
  · intro h100
    rw [hsig, if_neg h100]

/-- Witness instantiating C4_tracker_amended on concrete states. -/
theorem C4_tracker_amended_witness :
    (BaselineTracker.update (BaselineTracker.init 1 1) 5).history = [5] ∧
    BaselineTracker.get_threshold (BaselineTracker.init 1 1) 2 = 0 + 2 * 1e-6 := by
  have h := C4_tracker_amended (BaselineTracker.init 1 1) 5 StreamingBaselineTracker.init 2
  refine ⟨?_, h.2.2.2.2.2.1⟩
  have h1 := h.1
  have h2 := h.2.1
  have : (BaselineTracker.update (BaselineTracker.init 1 1) 5).history.length = 1 := by
    rw [h2]; rfl
  match hh : (BaselineTracker.update (BaselineTracker.init 1 1) 5).history with
  | [a] =>
    rw [hh] at h1
    simp at h1
    rw [h1]
  | [] => rw [hh] at this; simp at this
  | a :: b :: l => rw [hh] at this; simp at this

/-! ## StreamingPhysiologicalDetector construction
(src/analyze_session.py, lines 896-916) and the packaged defaults
(get_default_config, lines 1076-1083). -/

/-- The streaming_params dictionary: every key optional, matching
self.params.get(key, default) lookups in the source. -/
structure StreamingParams where
  min_interval_s : Option ℚ := none
  decision_latency_s : Option ℚ := none
  k_mad_liberal : Option ℚ := none
  k_mad_confirm : Option ℚ := none
  baseline_alpha : Option ℚ := none
  hampel_k : Option ℚ := none

/-- A tentative streaming candidate peak. -/
structure StreamCandidate where
  time : ℚ
  score : ℚ
  threshold : ℚ
  acc_peak : ℚ
  gyro_peak : ℚ

/-- Streaming detector state.  The fusion score of each sample and the
vector norms are inputs of process_sample here: in the source they come
from StreamingSignalProcessor (an IIR filter followed by np.linalg.norm,
i.e. a square root), so they are carried by the sample stream and
quantified over. -/
structure StreamingPhysiologicalDetector where
  min_interval : ℚ
  decision_latency : ℚ
  liberal_threshold : ℚ
  confirm_threshold : ℚ
  last_confirmed_time : ℚ
  candidate_peak : Option StreamCandidate
  baseline_tracker : StreamingBaselineTracker
  prev_score : ℚ
  in_peak : Bool
  peak_start_time : ℚ

namespace StreamingPhysiologicalDetector

/-- StreamingPhysiologicalDetector.__init__: parameter lookups with the
in-code fallbacks 0.300, 0.200, 3.0, 3.8; last_confirmed_time = -10.0;
the baseline tracker is constructed with ITS OWN defaults (the
baseline_alpha and hampel_k entries of the params are not passed on). -/
def init (p : StreamingParams) : StreamingPhysiologicalDetector :=
  { min_interval := p.min_interval_s.getD 0.300
    decision_latency := p.decision_latency_s.getD 0.200
    liberal_threshold := p.k_mad_liberal.getD 3.0
    confirm_threshold := p.k_mad_confirm.getD 3.8
    last_confirmed_time := -10
    candidate_peak := none
    baseline_tracker := StreamingBaselineTracker.init
    prev_score := 0
    in_peak := false
    peak_start_time := 0 }

end StreamingPhysiologicalDetector

/-- One streaming input sample.  The fusion score is the output of the
stateful StreamingSignalProcessor on the raw vectors (an IIR high-pass
followed by norms, hence a square root) and the two norms are
np.linalg.norm of the raw vectors; all three are carried as inputs and
universally quantified, which covers the concrete computations. -/
structure StreamSample where
  t : ℚ
  score : ℚ
  acc_norm : ℚ
  gyro_norm : ℚ

/-- An emitted streaming event (index is always -1 in the source). -/
structure StreamEvent where
  index : ℤ
  time : ℚ
  score : ℚ
  threshold : ℚ
  acc_peak : ℚ
  gyro_peak : ℚ

namespace StreamingPhysiologicalDetector

/-- StreamingPhysiologicalDetector._confirm_candidate
(src/analyze_session.py, lines 1034-1059). -/
def confirmCandidate (s : StreamingPhysiologicalDetector) :
    StreamingPhysiologicalDetector × Option StreamEvent :=
  match s.candidate_peak with
  | none => (s, none)
  | some c =>
    let confirm_thr := s.baseline_tracker.get_threshold s.confirm_threshold
    if c.score < confirm_thr then ({ s with candidate_peak := none }, none)
    else
      ({ s with candidate_peak := none, last_confirmed_time := c.time },
       some { index := -1, time := c.time, score := c.score, threshold := c.threshold,
              acc_peak := c.acc_peak, gyro_peak := c.gyro_peak })

/-- StreamingPhysiologicalDetector._update_peak_detection
(src/analyze_session.py, lines 1001-1032); prev_score is assigned last
on every path, as in the source. -/
def updatePeakDetection (s : StreamingPhysiologicalDetector) (x : StreamSample) :
    StreamingPhysiologicalDetector :=
  let threshold := s.baseline_tracker.get_threshold s.liberal_threshold
  let is_rising := s.prev_score < x.score
  let above_threshold := threshold < x.score
  let s1 :=
    if above_threshold ∧ is_rising ∧ s.in_peak = false then
      { s with in_peak := true, peak_start_time := x.t }
    else if s.in_peak = true ∧ ¬ is_rising then
      let s2 :=
        if above_threshold then
          let new_candidate : StreamCandidate :=
            { time := x.t, score := s.prev_score, threshold := threshold,
              acc_peak := x.acc_norm, gyro_peak := x.gyro_norm }
          match s.candidate_peak with
          | none => { s with candidate_peak := some new_candidate }
          | some old =>
            if old.score < new_candidate.score then
              { s with candidate_peak := some new_candidate }
            else s
        else s
      { s2 with in_peak := false }
    else s
  { s1 with prev_score := x.score }

/-- StreamingPhysiologicalDetector.process_sample
(src/analyze_session.py, lines 974-999): baseline update, latency-due
confirmation attempt, refractory dead zone, peak tracking. -/
def processSample (s : StreamingPhysiologicalDetector) (x : StreamSample) :
    StreamingPhysiologicalDetector × Option StreamEvent :=
  let s := { s with baseline_tracker := s.baseline_tracker.update x.score }
  let due :=
    match s.candidate_peak with
    | some c => decide (c.time + s.decision_latency ≤ x.t)
    | none => false
  if due then
    let r := confirmCandidate s
    if r.2.isSome then r
    else
      if x.t < r.1.last_confirmed_time + r.1.min_interval then (r.1, none)
      else (updatePeakDetection r.1 x, none)
  else
    if x.t < s.last_confirmed_time + s.min_interval then (s, none)
    else (updatePeakDetection s x, none)

/-- The per-sample loop of detect_streaming
(src/analyze_session.py, lines 938-953), collecting emitted events. -/
def run (s : StreamingPhysiologicalDetector) :
    List StreamSample → StreamingPhysiologicalDetector × List StreamEvent
  | [] => (s, [])
  | x :: xs =>
    let r1 := processSample s x
    let r2 := run r1.1 xs
    (r2.1, r1.2.toList ++ r2.2)

/-- StreamingPhysiologicalDetector.detect_streaming
(src/analyze_session.py, lines 918-972): run every sample through
process_sample, then attempt one final confirmation if a candidate is
pending and the last timestamp is past its decision latency.  The score
and threshold recording arrays of the source do not influence the event
list and are omitted. -/
def detect_streaming (p : StreamingParams) (samples : List StreamSample) :
    List StreamEvent :=
  let r := run (init p) samples
  match r.1.candidate_peak, samples.getLast? with
  | some c, some xlast =>
    if c.time + r.1.decision_latency ≤ xlast.t then
      r.2 ++ (confirmCandidate r.1).2.toList
    else r.2
  | _, _ => r.2

/-- Key invariant: a pending candidate was formed past the refractory
dead zone, so its time is at least last_confirmed_time + min_interval. -/
def CandInv (s : StreamingPhysiologicalDetector) : Prop :=
  ∀ c, s.candidate_peak = some c → s.last_confirmed_time + s.min_interval ≤ c.time

theorem confirm_latency (s : StreamingPhysiologicalDetector) :
    (confirmCandidate s).1.decision_latency = s.decision_latency := by
  unfold confirmCandidate
  rcases hc : s.candidate_peak with _ | c
  · rfl
  · dsimp only
    split_ifs <;> rfl

theorem confirm_spec (s : StreamingPhysiologicalDetector) (hInv : CandInv s) :
    CandInv (confirmCandidate s).1 ∧
    (confirmCandidate s).1.min_interval = s.min_interval ∧
    ((confirmCandidate s).2 = none →
      (confirmCandidate s).1.last_confirmed_time = s.last_confirmed_time) ∧
    (∀ e, (confirmCandidate s).2 = some e →
      e.index = -1 ∧
      s.last_confirmed_time + s.min_interval ≤ e.time ∧
      (confirmCandidate s).1.last_confirmed_time = e.time) := by
  unfold confirmCandidate
  rcases hc : s.candidate_peak with _ | c
  · dsimp only
    refine ⟨fun c h => hInv c h, rfl, fun _ => rfl, fun e he => ?_⟩
    simp at he
  · have hct := hInv c hc
    dsimp only
    split_ifs with hscore
    · refine ⟨fun c' h => ?_, rfl, fun _ => rfl, fun e he => ?_⟩
      · simp at h
      · simp at he
    · refine ⟨fun c' h => ?_, rfl, fun hnone => ?_, fun e he => ?_⟩
      · simp at h
      · simp at hnone
      · simp only [Option.some.injEq] at he
        subst he
        exact ⟨rfl, hct, rfl⟩

theorem updatePeak_spec (s : StreamingPhysiologicalDetector) (x : StreamSample)
    (hInv : CandInv s) (hx : s.last_confirmed_time + s.min_interval ≤ x.t) :
    CandInv (updatePeakDetection s x) ∧
    (updatePeakDetection s x).min_interval = s.min_interval ∧
    (updatePeakDetection s x).last_confirmed_time = s.last_confirmed_time ∧
    (updatePeakDetection s x).decision_latency = s.decision_latency := by
  unfold updatePeakDetection
  dsimp only
  split_ifs with h1 h2 h3
  · exact ⟨fun c hc => hInv c hc, rfl, rfl, rfl⟩
  · rcases hc : s.candidate_peak with _ | old
    · refine ⟨?_, rfl, rfl, rfl⟩
      intro c h
      obtain rfl := Option.some.inj h
      exact hx
    · dsimp only
      split_ifs with h4
      · refine ⟨?_, rfl, rfl, rfl⟩
        intro c h
        obtain rfl := Option.some.inj h
        exact hx
      · refine ⟨?_, rfl, rfl, rfl⟩
        intro c h
        exact hInv c h
  · exact ⟨fun c hc => hInv c hc, rfl, rfl, rfl⟩
  · exact ⟨fun c hc => hInv c hc, rfl, rfl, rfl⟩

theorem processSample_spec (s : StreamingPhysiologicalDetector) (x : StreamSample)
    (hInv : CandInv s) :
    CandInv (processSample s x).1 ∧
    (processSample s x).1.min_interval = s.min_interval ∧
    (processSample s x).1.decision_latency = s.decision_latency ∧
    ((processSample s x).2 = none →
      (processSample s x).1.last_confirmed_time = s.last_confirmed_time) ∧
    (∀ e, (processSample s x).2 = some e →
      e.index = -1 ∧ s.last_confirmed_time + s.min_interval ≤ e.time ∧
      (processSample s x).1.last_confirmed_time = e.time) := by
  unfold processSample
  dsimp only
  set su : StreamingPhysiologicalDetector :=
    { s with baseline_tracker := s.baseline_tracker.update x.score } with hsu
  have hInvU : CandInv su := fun c hc => hInv c hc
  obtain ⟨hcInv, hcMin, hcNone, hcSome⟩ := confirm_spec su hInvU
  have hcLat : (confirmCandidate su).1.decision_latency = s.decision_latency :=
    confirm_latency su
  split_ifs with hdue hsome hdead hdead
  · obtain ⟨e, hev⟩ := Option.isSome_iff_exists.mp hsome
    obtain ⟨he1, he2, he3⟩ := hcSome e hev
    refine ⟨hcInv, hcMin, hcLat, fun hnone => ?_, fun e' he' => ?_⟩
    · rw [hnone] at hev
      simp at hev
    · rw [hev] at he'
      obtain rfl := Option.some.inj he'
      exact ⟨he1, he2, he3⟩
  · have hev : (confirmCandidate su).2 = none := by
      rcases h : (confirmCandidate su).2 with _ | e
      · rfl
      · rw [h] at hsome
        simp at hsome
    have hlc := hcNone hev
    exact ⟨hcInv, hcMin, hcLat, fun _ => hlc, fun e he => by simp at he⟩
  · have hev : (confirmCandidate su).2 = none := by
      rcases h : (confirmCandidate su).2 with _ | e
      · rfl
      · rw [h] at hsome
        simp at hsome
    have hlc := hcNone hev
    push_neg at hdead
    have hx : (confirmCandidate su).1.last_confirmed_time +
        (confirmCandidate su).1.min_interval ≤ x.t := hdead
    obtain ⟨hu1, hu2, hu3, hu4⟩ := updatePeak_spec (confirmCandidate su).1 x hcInv hx
    refine ⟨hu1, ?_, ?_, fun _ => ?_, fun e he => by simp at he⟩
    · rw [hu2, hcMin]
    · rw [hu4, hcLat]
    · rw [hu3, hlc]
  · exact ⟨hInvU, rfl, rfl, fun _ => rfl, fun e he => by simp at he⟩
  · push_neg at hdead
    obtain ⟨hu1, hu2, hu3, hu4⟩ := updatePeak_spec su x hInvU hdead
    exact ⟨hu1, hu2, hu4, fun _ => hu3, fun e he => by simp at he⟩

theorem run_cons (s : StreamingPhysiologicalDetector) (x : StreamSample)
    (xs : List StreamSample) :
    run s (x :: xs) =
      ((run (processSample s x).1 xs).1,
       (processSample s x).2.toList ++ (run (processSample s x).1 xs).2) := rfl

theorem run_spec (xs : List StreamSample) (s : StreamingPhysiologicalDetector)
    (hInv : CandInv s) :
    CandInv (run s xs).1 ∧
    (run s xs).1.min_interval = s.min_interval ∧
    (run s xs).1.decision_latency = s.decision_latency ∧
    List.Chain (fun a b => a + s.min_interval ≤ b) s.last_confirmed_time
      (((run s xs).2).map StreamEvent.time) ∧
    (run s xs).1.last_confirmed_time =
      (((run s xs).2).map StreamEvent.time).getLastD s.last_confirmed_time ∧
    (∀ e ∈ (run s xs).2, e.index = -1) := by
  induction xs generalizing s with
  | nil => exact ⟨hInv, rfl, rfl, List.Chain.nil, rfl, by simp [run]⟩
  | cons x xs ih =>
    obtain ⟨hp1, hp2, hp3, hp4, hp5⟩ := processSample_spec s x hInv
    obtain ⟨hr1, hr2, hr3, hr4, hr5, hr6⟩ := ih (processSample s x).1 hp1
    rw [run_cons]
    rcases hev : (processSample s x).2 with _ | e
    · have hlc := hp4 hev
      simp only [Option.toList, List.nil_append]
      refine ⟨hr1, hr2.trans hp2, hr3.trans hp3, ?_, ?_, hr6⟩
      · rw [← hlc, ← hp2]
        exact hr4
      · rw [hr5, hlc]
    · obtain ⟨he1, he2, he3⟩ := hp5 e hev
      simp only [Option.toList, List.singleton_append, List.map_cons]
      refine ⟨hr1, hr2.trans hp2, hr3.trans hp3, ?_, ?_, ?_⟩
      · rw [List.chain_cons]
        refine ⟨he2, ?_⟩
        rw [← he3, ← hp2]
        exact hr4
      · rw [List.getLastD_cons, hr5, he3]
      · intro e' he'
        rcases List.mem_cons.mp he' with he' | he'
        · rw [he']
          exact he1
        · exact hr6 e' he'

theorem chainQ_snoc (m : ℚ) (a b : ℚ) (l : List ℚ)
    (h : List.Chain (fun u v => u + m ≤ v) a l) (hb : l.getLastD a + m ≤ b) :
    List.Chain (fun u v => u + m ≤ v) a (l ++ [b]) := by
  induction l generalizing a with
  | nil =>
    simp only [List.getLastD_nil] at hb
    exact List.Chain.cons hb List.Chain.nil
  | cons c l ih =>
    rw [List.chain_cons] at h
    rw [List.cons_append, List.chain_cons]
    refine ⟨h.1, ih c h.2 ?_⟩
    rw [List.getLastD_cons] at hb
    exact hb

theorem detect_streaming_spec (p : StreamingParams) (samples : List StreamSample) :
    List.Chain (fun a b => a + (init p).min_interval ≤ b) (init p).last_confirmed_time
      ((detect_streaming p samples).map StreamEvent.time) ∧
    (∀ e ∈ detect_streaming p samples, e.index = -1) := by
  have hInv0 : CandInv (init p) := by
    intro c hc
    simp [init] at hc
  obtain ⟨hr1, hr2, hr3, hr4, hr5, hr6⟩ := run_spec samples (init p) hInv0
  unfold detect_streaming
  dsimp only
  rcases hcand : (run (init p) samples).1.candidate_peak with _ | c
  · exact ⟨hr4, hr6⟩
  · rcases hlast : samples.getLast? with _ | xlast
    · exact ⟨hr4, hr6⟩
    · dsimp only
      split_ifs with hdue
      · obtain ⟨hcInv, hcMin, hcNone, hcSome⟩ := confirm_spec _ hr1
        rcases hev : (confirmCandidate (run (init p) samples).1).2 with _ | e
        · simp only [Option.toList, List.append_nil]
          exact ⟨hr4, hr6⟩
        · obtain ⟨he1, he2, he3⟩ := hcSome e hev
          simp only [Option.toList, List.map_append, List.map_cons, List.map_nil]
          constructor
          · refine chainQ_snoc _ _ _ _ hr4 ?_
            rw [← hr5, ← hr2]
            exact he2
          · intro e' he'
            rcases List.mem_append.mp he' with h | h
            · exact hr6 e' h
            · rw [List.mem_singleton] at h
              rw [h]
              exact he1
      · exact ⟨hr4, hr6⟩

end StreamingPhysiologicalDetector

/-- C2: for every parameter set and input sample stream (timestamps,
fusion scores and vector norms all arbitrary), consecutive events in the
streaming detector's output list, including an event confirmed by the
end-of-stream check, are separated by at least min_interval_s
(the configured value, default 0.300) exactly. -/
theorem C2_streaming_min_interval (p : StreamingParams) (samples : List StreamSample) :
    List.Chain' (fun a b : ℚ => a + p.min_interval_s.getD 0.300 ≤ b)
      ((StreamingPhysiologicalDetector.detect_streaming p samples).map
        StreamEvent.time) := by
  have h := (StreamingPhysiologicalDetector.detect_streaming_spec p samples).1
  have hmin : (StreamingPhysiologicalDetector.init p).min_interval
      = p.min_interval_s.getD 0.300 := rfl
  rw [hmin] at h
  rcases hm : (StreamingPhysiologicalDetector.detect_streaming p samples).map
      StreamEvent.time with _ | ⟨t, ts⟩
  · exact trivial
  · rw [hm] at h
    exact (List.chain_cons.mp h).2

/-- The streaming_params entry of get_default_config
(src/analyze_session.py, lines 1076-1083). -/
def default_config_streaming_params : StreamingParams :=
  { min_interval_s := some 0.300
    decision_latency_s := some 0.200
    k_mad_liberal := some 3.2
    k_mad_confirm := some 4.2
    baseline_alpha := some 0.001
    hampel_k := some 3.0 }

/-- C6: the claim asserts omitted k_mad entries default to 3.2 and 4.2,
but a configuration without them yields thresholds 3.0 and 3.8. -/
theorem C6_counterexample :
    (StreamingPhysiologicalDetector.init {}).liberal_threshold = 3 ∧
    ((3:ℚ) ≠ 3.2) ∧
    (StreamingPhysiologicalDetector.init {}).confirm_threshold = 3.8 ∧
    ((3.8:ℚ) ≠ 4.2) := by
  refine ⟨?_, by norm_num, ?_, by norm_num⟩ <;>
    norm_num [StreamingPhysiologicalDetector.init]

/-- C6 amended: when streaming_params omits k_mad_liberal and
k_mad_confirm the detector falls back to 3.0 and 3.8; the values 3.2 and
4.2 are supplied by get_default_config's streaming_params, and a
detector constructed from that packaged config does use 3.2 and 4.2. -/
theorem C6_defaults_amended :
    (StreamingPhysiologicalDetector.init {}).liberal_threshold = 3.0 ∧
    (StreamingPhysiologicalDetector.init {}).confirm_threshold = 3.8 ∧
    default_config_streaming_params.k_mad_liberal = some 3.2 ∧
    default_config_streaming_params.k_mad_confirm = some 4.2 ∧
    (StreamingPhysiologicalDetector.init default_config_streaming_params).liberal_threshold
      = 3.2 ∧
    (StreamingPhysiologicalDetector.init default_config_streaming_params).confirm_threshold
      = 4.2 := by
  refine ⟨?_, ?_, rfl, rfl, ?_, ?_⟩ <;>
    norm_num [StreamingPhysiologicalDetector.init, default_config_streaming_params]

/-! ## StationaryDetector event scan (src/analyze_session.py)

_detect_events (lines 683-738) and _detect_events_with_rejections
(lines 740-821).  These receive the dense score, threshold, a_hp and
gyro-magnitude arrays (float arrays that may contain NaN, hence FVal)
plus the time base, and scan the candidate indices where
score > threshold in increasing order. -/

/-- An offline event or candidate record: the dict built at
analyze_session.py lines 727-734 and 772-779. -/
structure OffEvent where
  index : ℤ
  time : ℚ
  score : FVal
  threshold : FVal
  acc_peak : FVal
  gyro_peak : FVal
deriving DecidableEq

/-- The stationary_params dictionary options with the fallback defaults
used by the .get calls in the source. -/
structure StationaryParams where
  hp_win : ℚ := 0.5
  thr_win : ℚ := 3.0
  k_mad : ℚ := 5.5
  refractory_s : ℚ := 0.12
  peakwin_s : ℚ := 0.04
  gatewin_s : ℚ := 0.18
  min_iei_s : ℚ := 0.10
  acc_gate : ℚ := 0.025
  gyro_gate : ℚ := 0.10

/-- Auxiliary scan for np.argmax over possibly-NaN floats: keeps the
first maximum, and a NaN (none) wins and then sticks, matching numpy's
treatment of NaN as greater than everything. -/
def argmaxFAux : List FVal → ℕ → ℕ → FVal → ℕ
  | [], _, bi, _ => bi
  | v :: rest, i, bi, bv =>
    match bv, v with
    | none, _ => bi
    | some _, none => argmaxFAux rest (i+1) i none
    | some b, some x =>
      if b < x then argmaxFAux rest (i+1) i (some x)
      else argmaxFAux rest (i+1) bi (some b)

/-- np.argmax of a list of floats (0 on the empty list, on which numpy
raises instead; the detectors only call it on windows containing the
candidate index). -/
def argmaxF : List FVal → ℕ
  | [] => 0
  | v :: rest => argmaxFAux rest 1 0 v

/-- np.nanmax: maximum ignoring NaNs; none when the window is all-NaN
(numpy returns NaN with a warning there). -/
def nanmaxF (l : List FVal) : FVal :=
  l.foldl
    (fun acc v =>
      match acc, v with
      | none, w => w
      | some a, none => some a
      | some a, some x => some (max a x))
    none

/-- np.where(score > threshold)[0]: the strictly increasing list of
indices whose score strictly exceeds the threshold, NaN comparing false. -/
def candidatesOf (score threshold : List FVal) : List ℕ :=
  (List.range score.length).filter
    (fun i => FVal.gtb (score.getD i none) (threshold.getD i none))

/-- The arrays and integer window parameters shared by one event scan. -/
structure OffCtx where
  t : List ℚ
  n : ℕ
  score : List FVal
  threshold : List FVal
  a_hp : List FVal
  g : List FVal
  refr : ℤ
  pw : ℤ
  gate : ℤ
  min_iei : ℤ
  acc_gate : ℚ
  gyro_gate : ℚ

namespace OffCtx

/-- Build the scan context from the params: refr, pw, gate and min_iei
are int(round(param * fs)) as in the source. -/
def make (p : StationaryParams) (t : List ℚ) (fs : ℚ)
    (score threshold a_hp g : List FVal) : OffCtx :=
  { t := t, n := score.length, score := score, threshold := threshold,
    a_hp := a_hp, g := g,
    refr := pyround (p.refractory_s * fs),
    pw := pyround (p.peakwin_s * fs),
    gate := pyround (p.gatewin_s * fs),
    min_iei := pyround (p.min_iei_s * fs),
    acc_gate := p.acc_gate, gyro_gate := p.gyro_gate }

/-- The candidate dict for index i. -/
def mkCandidate (ctx : OffCtx) (i : ℕ) : OffEvent :=
  { index := (i:ℤ), time := ctx.t.getD i 0, score := ctx.score.getD i none,
    threshold := ctx.threshold.getD i none, acc_peak := ctx.a_hp.getD i none,
    gyro_peak := ctx.g.getD i none }

/-- Local-maximum test: i == i0 + np.argmax(score[i0:i1]) with
i0 = max(0, i-pw) and i1 = min(n, i+pw+1). -/
def localMaxOK (ctx : OffCtx) (i : ℕ) : Bool :=
  let i0 : ℕ := (max 0 ((i:ℤ) - ctx.pw)).toNat
  let i1 : ℕ := (min (ctx.n:ℤ) ((i:ℤ) + ctx.pw + 1)).toNat
  decide ((i:ℤ) = (i0:ℤ) + (argmaxF (sliceL ctx.score i0 i1) : ℤ))

/-- The two gate maxima: np.nanmax of a_hp and of the gyro magnitude over
the window [max(0,i-gate), min(n,i+gate+1)). -/
def gatesMax (ctx : OffCtx) (i : ℕ) : FVal × FVal :=
  let g0 : ℕ := (max 0 ((i:ℤ) - ctx.gate)).toNat
  let g1 : ℕ := (min (ctx.n:ℤ) ((i:ℤ) + ctx.gate + 1)).toNat
  (nanmaxF (sliceL ctx.a_hp g0 g1), nanmaxF (sliceL ctx.g g0 g1))

/-- The candidate loop of _detect_events, with the events accumulator and
the index of the last accepted event (initially -10^9). -/
def detectLoop (ctx : OffCtx) : List ℕ → List OffEvent → ℤ → List OffEvent
  | [], events, _ => events
  | i :: rest, events, last =>
    if (i:ℤ) - last < ctx.refr then detectLoop ctx rest events last
    else if localMaxOK ctx i = false then detectLoop ctx rest events last
    else if FVal.ltb (gatesMax ctx i).1 (some ctx.acc_gate)
        || FVal.ltb (gatesMax ctx i).2 (some ctx.gyro_gate) then
      detectLoop ctx rest events last
    else
      match events.getLast? with
      | some elast =>
        if (i:ℤ) - elast.index < ctx.min_iei then detectLoop ctx rest events last
        else detectLoop ctx rest (events ++ [mkCandidate ctx i]) (i:ℤ)
      | none => detectLoop ctx rest (events ++ [mkCandidate ctx i]) (i:ℤ)

end OffCtx

/-- StationaryDetector._detect_events. -/
def detect_events (p : StationaryParams) (t : List ℚ) (fs : ℚ)
    (score threshold a_hp g : List FVal) : List OffEvent :=
  let ctx := OffCtx.make p t fs score threshold a_hp g
  OffCtx.detectLoop ctx (candidatesOf score threshold) [] (-(10^9 : ℤ))

/-- The five rejection buckets, the accepted events and the last accepted
index during a _detect_events_with_rejections scan. -/
structure RejState where
  events : List OffEvent
  refractory : List OffEvent
  not_peak : List OffEvent
  acc_gates : List OffEvent
  gyro_gates : List OffEvent
  min_iei : List OffEvent
  last : ℤ

/-- Initial rejection-collecting state. -/
def RejState.init : RejState :=
  { events := [], refractory := [], not_peak := [], acc_gates := [],
    gyro_gates := [], min_iei := [], last := -(10^9 : ℤ) }

namespace OffCtx

/-- The two separate gate-bucket appends of
_detect_events_with_rejections (lines 803-806): a candidate failing the
acceleration gate is recorded in acc_gates, one failing the gyro gate in
gyro_gates, and one failing both in both. -/
def gateRecord (st : RejState) (cand : OffEvent) (accPass gyroPass : Bool) : RejState :=
  let st1 := if accPass = false then { st with acc_gates := st.acc_gates ++ [cand] } else st
  if gyroPass = false then { st1 with gyro_gates := st1.gyro_gates ++ [cand] } else st1

/-- The candidate loop of _detect_events_with_rejections: identical
checks, but every rejected candidate is recorded; a candidate failing
both gates goes to both gate buckets. -/
def rejLoop (ctx : OffCtx) : List ℕ → RejState → RejState
  | [], st => st
  | i :: rest, st =>
    let cand := mkCandidate ctx i
    if (i:ℤ) - st.last < ctx.refr then
      rejLoop ctx rest { st with refractory := st.refractory ++ [cand] }
    else if localMaxOK ctx i = false then
      rejLoop ctx rest { st with not_peak := st.not_peak ++ [cand] }
    else
      let accPass := FVal.geb (gatesMax ctx i).1 (some ctx.acc_gate)
      let gyroPass := FVal.geb (gatesMax ctx i).2 (some ctx.gyro_gate)
      let st2 := gateRecord st cand accPass gyroPass
      if (accPass && gyroPass) = false then rejLoop ctx rest st2
      else
        match st2.events.getLast? with
        | some elast =>
          if (i:ℤ) - elast.index < ctx.min_iei then
            rejLoop ctx rest { st2 with min_iei := st2.min_iei ++ [cand] }
          else rejLoop ctx rest { st2 with events := st2.events ++ [cand], last := (i:ℤ) }
        | none => rejLoop ctx rest { st2 with events := st2.events ++ [cand], last := (i:ℤ) }

end OffCtx

/-- StationaryDetector._detect_events_with_rejections. -/
def detect_events_with_rejections (p : StationaryParams) (t : List ℚ) (fs : ℚ)
    (score threshold a_hp g : List FVal) : RejState :=
  let ctx := OffCtx.make p t fs score threshold a_hp g
  OffCtx.rejLoop ctx (candidatesOf score threshold) RejState.init

/-- Membership for the value of getLast?. -/
theorem mem_of_getLastSome {α : Type} (l : List α) (a : α) (h : l.getLast? = some a) :
    a ∈ l := by
  rcases List.mem_getLast?_eq_getLast (l := l) (x := a) (by rw [h]; rfl) with ⟨hne, rfl⟩
  exact List.getLast_mem hne

/-- Chain' transport along a relation implication that may use a
per-element property of the list. -/
theorem chain'_imp_mem {α : Type} {R S : α → α → Prop} {Q : α → Prop} :
    ∀ {l : List α}, List.Chain' R l → (∀ a ∈ l, Q a) →
      (∀ a b, Q a → Q b → R a b → S a b) → List.Chain' S l
  | [], _, _, _ => List.chain'_nil
  | [_], _, _, _ => List.chain'_singleton _
  | a :: b :: l, h, hQ, himp => by
    rw [List.chain'_cons] at h ⊢
    refine ⟨himp a b (hQ a (by simp)) (hQ b (by simp)) h.1, ?_⟩
    exact chain'_imp_mem h.2 (fun x hx => hQ x (List.mem_cons_of_mem _ hx)) himp

namespace OffCtx

/-- Every event of the scan is the candidate dict of some in-range index
whose score exceeds its threshold. -/
def QProp (ctx : OffCtx) (e : OffEvent) : Prop :=
  ∃ i : ℕ, i < ctx.n ∧
    FVal.gtb (ctx.score.getD i none) (ctx.threshold.getD i none) = true ∧
    e = ctx.mkCandidate i

/-- Consecutive accepted events: strictly increasing index with an index
gap of at least min_iei. -/
def Rgap (ctx : OffCtx) (e1 e2 : OffEvent) : Prop :=
  e1.index < e2.index ∧ ctx.min_iei ≤ e2.index - e1.index

/-- The loop variable last always equals the index of the last accepted
event (or the initial -10^9). -/
def LastOK (events : List OffEvent) (last : ℤ) : Prop :=
  match events.getLast? with
  | some el => el.index = last
  | none => last = -(10^9 : ℤ)

theorem detectLoop_spec (ctx : OffCtx) (cs : List ℕ)
    (events : List OffEvent) (last : ℤ)
    (hcs : List.Pairwise (· < ·) cs)
    (hcsQ : ∀ i ∈ cs, i < ctx.n ∧
      FVal.gtb (ctx.score.getD i none) (ctx.threshold.getD i none) = true)
    (hP1 : List.Chain' (Rgap ctx) events)
    (hP2 : ∀ e ∈ events, QProp ctx e)
    (hP3 : LastOK events last)
    (hP4 : ∀ i ∈ cs, ∀ e ∈ events, e.index < (i:ℤ)) :
    List.Chain' (Rgap ctx) (detectLoop ctx cs events last) ∧
    (∀ e ∈ detectLoop ctx cs events last, QProp ctx e) := by
  induction cs generalizing events last with
  | nil => exact ⟨hP1, hP2⟩
  | cons i rest ih =>
    have hpc := List.pairwise_cons.mp hcs
    have hiQ := hcsQ i (List.mem_cons_self i rest)
    have hcsQ' : ∀ j ∈ rest, j < ctx.n ∧
        FVal.gtb (ctx.score.getD j none) (ctx.threshold.getD j none) = true :=
      fun j hj => hcsQ j (List.mem_cons_of_mem _ hj)
    have hP4' : ∀ j ∈ rest, ∀ e ∈ events, e.index < (j:ℤ) :=
      fun j hj e he => hP4 j (List.mem_cons_of_mem _ hj) e he
    unfold detectLoop
    split_ifs with h1 h2 h3
    · exact ih _ _ hpc.2 hcsQ' hP1 hP2 hP3 hP4'
    · exact ih _ _ hpc.2 hcsQ' hP1 hP2 hP3 hP4'
    · exact ih _ _ hpc.2 hcsQ' hP1 hP2 hP3 hP4'
    · rcases hl : events.getLast? with _ | elast
      · have hempty : events = [] := by simpa using hl
        subst hempty
        dsimp only
        apply ih _ _ hpc.2 hcsQ'
        · simp
        · intro e he
          simp only [List.nil_append, List.mem_singleton] at he
          subst he
          exact ⟨i, hiQ.1, hiQ.2, rfl⟩
        · show LastOK ([] ++ [ctx.mkCandidate i]) (i:ℤ)
          unfold LastOK
          simp [mkCandidate]
        · intro j hj e he
          simp only [List.nil_append, List.mem_singleton] at he
          subst he
          show ((ctx.mkCandidate i).index) < (j:ℤ)
          show (i:ℤ) < (j:ℤ)
          exact_mod_cast hpc.1 j hj
      · dsimp only
        split_ifs with h4
        · exact ih _ _ hpc.2 hcsQ' hP1 hP2 hP3 hP4'
        · have helastMem : elast ∈ events := mem_of_getLastSome _ _ hl
          have hidx : elast.index < (i:ℤ) := hP4 i (List.mem_cons_self _ _) elast helastMem
          have hrel : Rgap ctx elast (ctx.mkCandidate i) := by
            constructor
            · show elast.index < (ctx.mkCandidate i).index
              unfold mkCandidate
              exact hidx
            · show ctx.min_iei ≤ (ctx.mkCandidate i).index - elast.index
              unfold mkCandidate
              push_neg at h4
              exact h4
          apply ih _ _ hpc.2 hcsQ'
          · rw [List.chain'_append]
            refine ⟨hP1, by simp, ?_⟩
            intro x hx y hy
            rw [hl] at hx
            simp only [Option.mem_def, Option.some.injEq] at hx
            simp only [List.head?_cons, Option.mem_def, Option.some.injEq] at hy
            subst hx
            subst hy
            exact hrel
          · intro e he
            rcases List.mem_append.mp he with he | he
            · exact hP2 e he
            · rw [List.mem_singleton] at he
              subst he
              exact ⟨i, hiQ.1, hiQ.2, rfl⟩
          · show LastOK (events ++ [ctx.mkCandidate i]) (i:ℤ)
            unfold LastOK
            rw [List.getLast?_concat]
            rfl
          · intro j hj e he
            rcases List.mem_append.mp he with he | he
            · exact hP4' j hj e he
            · rw [List.mem_singleton] at he
              subst he
              show ((ctx.mkCandidate i).index) < (j:ℤ)
              show (i:ℤ) < (j:ℤ)
              exact_mod_cast hpc.1 j hj

end OffCtx

theorem detect_events_spec (p : StationaryParams) (t : List ℚ) (fs : ℚ)
    (score threshold a_hp g : List FVal) :
    List.Chain' (OffCtx.Rgap (OffCtx.make p t fs score threshold a_hp g))
      (detect_events p t fs score threshold a_hp g) ∧
    (∀ e ∈ detect_events p t fs score threshold a_hp g,
      OffCtx.QProp (OffCtx.make p t fs score threshold a_hp g) e) := by
  apply OffCtx.detectLoop_spec
  · exact List.Pairwise.sublist (List.filter_sublist _) (List.pairwise_lt_range _)
  · intro i hi
    rw [candidatesOf, List.mem_filter] at hi
    exact ⟨List.mem_range.mp hi.1, hi.2⟩
  · exact List.chain'_nil
  · intro e he
    simp at he
  · rfl
  · intro i _ e he
    simp at he

/-- Python round never falls more than one half below its argument. -/
theorem pyround_ge (q : ℚ) : q - 1/2 ≤ (pyround q : ℚ) := by
  unfold pyround
  have h0 : (0:ℚ) ≤ q - ⌊q⌋ := by
    have := Int.floor_le q
    linarith
  have h1 : q - ⌊q⌋ < 1 := by
    have := Int.lt_floor_add_one q
    linarith
  dsimp only
  split_ifs with ha hb hc
  · linarith
  · push_cast
    linarith
  · linarith
  · push_cast
    linarith

/-- Monotone timestamps read through getD. -/
theorem sorted_getD_le (t : List ℚ) (hs : List.Sorted (· ≤ ·) t) (i j : ℕ)
    (hij : i ≤ j) (hj : j < t.length) : t.getD i 0 ≤ t.getD j 0 := by
  rcases eq_or_lt_of_le hij with rfl | hlt
  · exact le_rfl
  · have hi : i < t.length := lt_trans hlt hj
    rw [List.getD_eq_getElem _ _ hi, List.getD_eq_getElem _ _ hj]
    exact List.pairwise_iff_getElem.mp hs i j hi hj hlt

/-- Index gaps of at least int(round(m*fs)) give time gaps of at least
m - 1/fs on a uniform time base. -/
theorem gap_bound (m fs : ℚ) (hfs : 0 < fs) (d : ℤ)
    (hd : pyround (m * fs) ≤ d) : m - 1/fs ≤ (d:ℚ)/fs := by
  have h1 : m * fs - 1/2 ≤ (pyround (m * fs) : ℚ) := pyround_ge _
  have h2 : (pyround (m * fs) : ℚ) ≤ (d:ℚ) := by exact_mod_cast hd
  have h3 : m * fs - 1/2 ≤ (d:ℚ) := le_trans h1 h2
  rw [le_div_iff₀ hfs]
  have hexp : (m - 1/fs) * fs = m * fs - 1 := by
    field_simp
  rw [hexp]
  linarith

/-- C1 amended: for every time base, rate and input arrays, the offline
event list is strictly increasing in index; when the timestamps are
monotone non-decreasing the event times are non-decreasing; and when the
timestamps are uniformly spaced at 1/fs with fs positive, the event
times are strictly increasing and consecutive events satisfy
time2 - time1 >= min_iei_s - 1/fs. -/
theorem C1_offline_ordering_amended (p : StationaryParams) (t : List ℚ) (fs : ℚ)
    (score threshold a_hp g : List FVal)
    (hsort : List.Sorted (· ≤ ·) t)
    (hlen : score.length ≤ t.length) :
    List.Chain' (fun e1 e2 : OffEvent => e1.index < e2.index)
      (detect_events p t fs score threshold a_hp g) ∧
    List.Chain' (fun e1 e2 : OffEvent => e1.time ≤ e2.time)
      (detect_events p t fs score threshold a_hp g) ∧
    ((∀ i < t.length, t.getD i 0 = t.getD 0 0 + (i:ℚ) / fs) → 0 < fs →
      List.Chain' (fun e1 e2 : OffEvent => e1.time < e2.time)
        (detect_events p t fs score threshold a_hp g) ∧
      List.Chain' (fun e1 e2 : OffEvent => p.min_iei_s - 1/fs ≤ e2.time - e1.time)
        (detect_events p t fs score threshold a_hp g)) := by
  obtain ⟨hchain, hq⟩ := detect_events_spec p t fs score threshold a_hp g
  have hn : (OffCtx.make p t fs score threshold a_hp g).n = score.length := rfl
  refine ⟨?_, ?_, ?_⟩
  · exact chain'_imp_mem hchain hq (fun a b _ _ hr => hr.1)
  · refine chain'_imp_mem hchain hq ?_
    rintro a b ⟨i, hi, _, rfl⟩ ⟨j, hj, _, rfl⟩ hr
    show (OffCtx.make p t fs score threshold a_hp g).t.getD i 0 ≤
      (OffCtx.make p t fs score threshold a_hp g).t.getD j 0
    have hij : i < j := by
      have := hr.1
      simp only [OffCtx.mkCandidate] at this
      exact_mod_cast this
    exact sorted_getD_le t hsort i j (le_of_lt hij) (lt_of_lt_of_le (hn ▸ hj) hlen)
  · intro huni hfs
    constructor
    · refine chain'_imp_mem hchain hq ?_
      rintro a b ⟨i, hi, _, rfl⟩ ⟨j, hj, _, rfl⟩ hr
      show (OffCtx.make p t fs score threshold a_hp g).t.getD i 0 <
        (OffCtx.make p t fs score threshold a_hp g).t.getD j 0
      have hij : i < j := by
        have := hr.1
        simp only [OffCtx.mkCandidate] at this
        exact_mod_cast this
      have hjt : j < t.length := lt_of_lt_of_le (hn ▸ hj) hlen
      have hit : i < t.length := lt_trans hij hjt
      show t.getD i 0 < t.getD j 0
      rw [huni i hit, huni j hjt]
      have hcast : (i:ℚ) < (j:ℚ) := by exact_mod_cast hij
      have hstep : (i:ℚ)/fs < (j:ℚ)/fs := by
        rw [div_lt_div_iff₀ hfs hfs]
        exact mul_lt_mul_of_pos_right hcast hfs
      linarith
    · refine chain'_imp_mem hchain hq ?_
      rintro a b ⟨i, hi, _, rfl⟩ ⟨j, hj, _, rfl⟩ hr
      have hij : i < j := by
        have := hr.1
        simp only [OffCtx.mkCandidate] at this
        exact_mod_cast this
      have hjt : j < t.length := lt_of_lt_of_le (hn ▸ hj) hlen
      have hit : i < t.length := lt_trans hij hjt
      show p.min_iei_s - 1/fs ≤
        (OffCtx.make p t fs score threshold a_hp g).t.getD j 0 -
        (OffCtx.make p t fs score threshold a_hp g).t.getD i 0
      show p.min_iei_s - 1/fs ≤ t.getD j 0 - t.getD i 0
      rw [huni i hit, huni j hjt]
      have hgap := hr.2
      simp only [OffCtx.mkCandidate, OffCtx.make] at hgap
      have hbound := gap_bound p.min_iei_s fs hfs ((j:ℤ) - (i:ℤ)) hgap
      have hcast : (((j:ℤ) - (i:ℤ) : ℤ) : ℚ) = (j:ℚ) - (i:ℚ) := by push_cast; ring
      rw [hcast] at hbound
      have : (j:ℚ)/fs - (i:ℚ)/fs = ((j:ℚ) - (i:ℚ))/fs := by ring
      linarith [this ▸ hbound]

/-- Config of the C1 counterexample: zero-width refractory/peak/gate
windows, min_iei_s of 2 seconds, gates at 0.5. -/
def cxP : StationaryParams :=
  { refractory_s := 0, peakwin_s := 0, gatewin_s := 0, min_iei_s := 2,
    acc_gate := 1, gyro_gate := 1 }

/-- Non-decreasing time base with repeated timestamps (allowed by the
SensorStream invariant) at fs = 1. -/
def cxT : List ℚ := [0, 1, 1, 1, 2]

/-- Score array of the C1 counterexample. -/
def cxScore : List FVal := [some 0, some 5, some 0, some 5, some 0]

/-- Threshold array of the C1 counterexample. -/
def cxThr : List FVal := [some 1, some 1, some 1, some 1, some 1]

/-- High-passed acceleration of the C1 counterexample. -/
def cxAhp : List FVal := [some 0, some 1, some 0, some 1, some 0]

/-- Gyro magnitude of the C1 counterexample. -/
def cxG : List FVal := [some 0, some 1, some 0, some 1, some 0]

/-- The integer-window scan context of the C1 counterexample. -/
def cxCtx : OffCtx :=
  { t := cxT, n := 5, score := cxScore, threshold := cxThr, a_hp := cxAhp,
    g := cxG, refr := 0, pw := 0, gate := 0, min_iei := 2,
    acc_gate := 1, gyro_gate := 1 }

/-- Rounding an integer-valued rational is the identity. -/
theorem pyround_ofInt (z : ℤ) (q : ℚ) (h : q = (z:ℚ)) : pyround q = z := by
  subst h
  unfold pyround
  dsimp only
  rw [Int.floor_intCast]
  simp

theorem cx_make_eq : OffCtx.make cxP cxT 1 cxScore cxThr cxAhp cxG = cxCtx := by
  unfold OffCtx.make cxCtx
  rw [show pyround (cxP.refractory_s * 1) = 0 from pyround_ofInt 0 _ (by norm_num [cxP]),
    show pyround (cxP.peakwin_s * 1) = 0 from pyround_ofInt 0 _ (by norm_num [cxP]),
    show pyround (cxP.gatewin_s * 1) = 0 from pyround_ofInt 0 _ (by norm_num [cxP]),
    show pyround (cxP.min_iei_s * 1) = 2 from pyround_ofInt 2 _ (by norm_num [cxP])]
  rfl

/-- C1: on a SensorStream whose non-decreasing timestamps repeat, the
offline scan accepts candidates at indices 1 and 3 that share the
timestamp 1: the emitted times [1, 1] are not strictly increasing, and
the time gap 0 is below min_iei_s - 1/fs = 1.  This refutes the claimed
strict time ordering and gap bound. -/
theorem C1_counterexample :
    List.Sorted (· ≤ ·) cxT ∧ 3 ≤ cxT.length ∧
    (detect_events cxP cxT 1 cxScore cxThr cxAhp cxG).map OffEvent.time = [1, 1] ∧
    ¬ ((1:ℚ) < 1) ∧ ((1:ℚ) - 1 < cxP.min_iei_s - 1/1) := by
  refine ⟨?_, ?_, ?_, ?_, ?_⟩
  · norm_num [cxT, List.sorted_cons]
  · norm_num [cxT]
  · show (OffCtx.detectLoop (OffCtx.make cxP cxT 1 cxScore cxThr cxAhp cxG)
      (candidatesOf cxScore cxThr) [] (-(10^9 : ℤ))).map OffEvent.time = [1, 1]
    rw [cx_make_eq]
    rfl
  · norm_num
  · norm_num [cxP]

/-- A uniformly spaced time base at fs = 1 for the C1/C9 witnesses. -/
def cxTU : List ℚ := [0, 1, 2, 3, 4]

/-- Witness instantiating C1_offline_ordering_amended on a concrete
uniform stream. -/
theorem C1_offline_ordering_amended_witness :
    List.Chain' (fun e1 e2 : OffEvent => e1.time < e2.time)
      (detect_events cxP cxTU 1 cxScore cxThr cxAhp cxG) := by
  have h := C1_offline_ordering_amended cxP cxTU 1 cxScore cxThr cxAhp cxG
    (by norm_num [cxTU, List.sorted_cons])
    (by norm_num [cxTU, cxScore])
  refine (h.2.2 ?_ (by norm_num)).1
  intro i hi
  norm_num [cxTU] at hi
  interval_cases i <;> norm_num [cxTU]

/-- Membership of an indexed element in a python slice. -/
theorem getD_mem_sliceL {α : Type} (l : List α) (d : α) (a b i : ℕ)
    (ha : a ≤ i) (hb : i < b) (hl : i < l.length) : l.getD i d ∈ sliceL l a b := by
  unfold sliceL
  have hlen : i - a < ((l.drop a).take (b - a)).length := by
    rw [List.length_take, List.length_drop]
    omega
  have hget : ((l.drop a).take (b - a)).getD (i - a) d = l.getD i d := by
    rw [List.getD_eq_getElem _ _ hlen, List.getD_eq_getElem _ _ hl]
    rw [List.getElem_take, List.getElem_drop]
    congr 1
    omega
  rw [← hget, List.getD_eq_getElem _ _ hlen]
  exact List.getElem_mem _

/-- The nanmax fold preserves a non-NaN accumulator. -/
theorem nanmax_fold_isSome (l : List FVal) (acc : FVal) (hacc : acc.isSome) :
    (l.foldl
      (fun acc v =>
        match acc, v with
        | none, w => w
        | some a, none => some a
        | some a, some x => some (max a x)) acc).isSome := by
  induction l generalizing acc with
  | nil => exact hacc
  | cons v rest ih =>
    rcases hacc' : acc with _ | a
    · rw [hacc'] at hacc
      simp at hacc
    · rcases v with _ | x
      · exact ih (some a) rfl
      · exact ih (some (max a x)) rfl

/-- np.nanmax of a window that contains at least one finite value is
finite. -/
theorem nanmaxF_isSome_of_mem (l : List FVal) (x : ℚ) (hx : some x ∈ l) :
    (nanmaxF l).isSome := by
  unfold nanmaxF
  induction l with
  | nil => simp at hx
  | cons v rest ih =>
    rcases List.mem_cons.mp hx with hv | hv
    · subst hv
      exact nanmax_fold_isSome rest _ rfl
    · rcases v with _ | a
      · exact ih hv
      · exact nanmax_fold_isSome rest _ rfl

namespace OffCtx

/-- Both gate maxima are finite when the windows are non-degenerate and
the corresponding arrays are NaN-free. -/
theorem gatesMax_isSome (ctx : OffCtx) (i : ℕ) (hgate : 0 ≤ ctx.gate)
    (hi : i < ctx.n) (hlenA : ctx.n ≤ ctx.a_hp.length) (hlenG : ctx.n ≤ ctx.g.length)
    (hA : ∀ x ∈ ctx.a_hp, x.isSome) (hG : ∀ x ∈ ctx.g, x.isSome) :
    ((ctx.gatesMax i).1).isSome ∧ ((ctx.gatesMax i).2).isSome := by
  have hg0 : ((max 0 ((i:ℤ) - ctx.gate)).toNat) ≤ i := by omega
  have hg1 : i < ((min (ctx.n:ℤ) ((i:ℤ) + ctx.gate + 1)).toNat) := by omega
  constructor
  · have hiA : i < ctx.a_hp.length := lt_of_lt_of_le hi hlenA
    have hmem := getD_mem_sliceL ctx.a_hp none _ _ i hg0 hg1 hiA
    have hsome : (ctx.a_hp.getD i none).isSome := by
      rcases hlA : ctx.a_hp.getD i none with _ | q
      · exfalso
        have : ctx.a_hp.getD i none ∈ ctx.a_hp := by
          rw [List.getD_eq_getElem _ _ hiA]
          exact List.getElem_mem _
        have := hA _ this
        rw [hlA] at this
        simp at this
      · rfl
    rcases ho : ctx.a_hp.getD i none with _ | q
    · rw [ho] at hsome
      simp at hsome
    · rw [ho] at hmem
      exact nanmaxF_isSome_of_mem _ q hmem
  · have hiG : i < ctx.g.length := lt_of_lt_of_le hi hlenG
    have hmem := getD_mem_sliceL ctx.g none _ _ i hg0 hg1 hiG
    have hsome : (ctx.g.getD i none).isSome := by
      rcases hlG : ctx.g.getD i none with _ | q
      · exfalso
        have : ctx.g.getD i none ∈ ctx.g := by
          rw [List.getD_eq_getElem _ _ hiG]
          exact List.getElem_mem _
        have := hG _ this
        rw [hlG] at this
        simp at this
      · rfl
    rcases ho : ctx.g.getD i none with _ | q
    · rw [ho] at hsome
      simp at hsome
    · rw [ho] at hmem
      exact nanmaxF_isSome_of_mem _ q hmem

/-- On finite gate maxima the plain scan's skip condition is the
negation of the rejection scan's pass conjunction. -/
theorem gate_condition_equiv (m1 m2 : FVal) (ag gg : ℚ)
    (h1 : m1.isSome) (h2 : m2.isSome) :
    (FVal.ltb m1 (some ag) || FVal.ltb m2 (some gg)) =
      !(FVal.geb m1 (some ag) && FVal.geb m2 (some gg)) := by
  rcases m1 with _ | a
  · simp at h1
  · rcases m2 with _ | b
    · simp at h2
    · simp only [FVal.ltb, FVal.geb]
      rcases lt_or_le a ag with hA | hA
      · rcases lt_or_le b gg with hB | hB <;>
          simp [hA, hB, not_le.mpr hA]
      · rcases lt_or_le b gg with hB | hB
        · simp [hA, hB, not_lt.mpr hA, not_le.mpr hB]
        · simp [hA, hB, not_lt.mpr hA, not_lt.mpr hB]

theorem gateRecord_events (st : RejState) (cand : OffEvent) (a g : Bool) :
    (gateRecord st cand a g).events = st.events := by
  unfold gateRecord
  dsimp only
  split_ifs <;> rfl

theorem gateRecord_last (st : RejState) (cand : OffEvent) (a g : Bool) :
    (gateRecord st cand a g).last = st.last := by
  unfold gateRecord
  dsimp only
  split_ifs <;> rfl

theorem gateRecord_refractory (st : RejState) (cand : OffEvent) (a g : Bool) :
    (gateRecord st cand a g).refractory = st.refractory := by
  unfold gateRecord
  dsimp only
  split_ifs <;> rfl

theorem gateRecord_not_peak (st : RejState) (cand : OffEvent) (a g : Bool) :
    (gateRecord st cand a g).not_peak = st.not_peak := by
  unfold gateRecord
  dsimp only
  split_ifs <;> rfl

theorem gateRecord_min_iei (st : RejState) (cand : OffEvent) (a g : Bool) :
    (gateRecord st cand a g).min_iei = st.min_iei := by
  unfold gateRecord
  dsimp only
  split_ifs <;> rfl

theorem gateRecord_acc_gates (st : RejState) (cand : OffEvent) (a g : Bool) :
    (gateRecord st cand a g).acc_gates =
      st.acc_gates ++ (if a = false then [cand] else []) := by
  unfold gateRecord
  dsimp only
  split_ifs <;> simp

theorem gateRecord_gyro_gates (st : RejState) (cand : OffEvent) (a g : Bool) :
    (gateRecord st cand a g).gyro_gates =
      st.gyro_gates ++ (if g = false then [cand] else []) := by
  unfold gateRecord
  dsimp only
  split_ifs <;> simp

theorem rejLoop_events_eq (ctx : OffCtx)
    (hgate : 0 ≤ ctx.gate) (hlenA : ctx.n ≤ ctx.a_hp.length)
    (hlenG : ctx.n ≤ ctx.g.length)
    (hA : ∀ x ∈ ctx.a_hp, x.isSome) (hG : ∀ x ∈ ctx.g, x.isSome) :
    ∀ (cs : List ℕ), (∀ i ∈ cs, i < ctx.n) → ∀ st : RejState,
      (rejLoop ctx cs st).events = detectLoop ctx cs st.events st.last := by
  intro cs
  induction cs with
  | nil =>
    intro _ st
    rfl
  | cons i rest ih =>
    intro hcs st
    have hi := hcs i (List.mem_cons_self _ _)
    have hrest : ∀ j ∈ rest, j < ctx.n :=
      fun j hj => hcs j (List.mem_cons_of_mem _ hj)
    obtain ⟨hm1, hm2⟩ := gatesMax_isSome ctx i hgate hi hlenA hlenG hA hG
    have hcond := gate_condition_equiv (ctx.gatesMax i).1 (ctx.gatesMax i).2
      ctx.acc_gate ctx.gyro_gate hm1 hm2
    unfold rejLoop detectLoop
    dsimp only
    rw [hcond]
    simp only [Bool.not_eq_true']
    split_ifs with h1 h2 h3
    · rw [ih hrest]
    · rw [ih hrest]
    · rw [ih hrest, gateRecord_events, gateRecord_last]
    · rw [gateRecord_events, gateRecord_last]
      rcases hl : st.events.getLast? with _ | elast
      · dsimp only
        rw [ih hrest]
      · dsimp only
        split_ifs with h4
        · rw [ih hrest]
        · rw [ih hrest]

end OffCtx

/-- C9: with NaN-free acceleration and gyro arrays (and a non-degenerate
gate window), the plain event scan and the rejection-collecting scan
return identical event lists. -/
theorem C9_rejections_events_equal (p : StationaryParams) (t : List ℚ) (fs : ℚ)
    (score threshold a_hp g : List FVal)
    (hgate : 0 ≤ pyround (p.gatewin_s * fs))
    (hlenA : score.length ≤ a_hp.length) (hlenG : score.length ≤ g.length)
    (hA : ∀ x ∈ a_hp, x.isSome) (hG : ∀ x ∈ g, x.isSome) :
    (detect_events_with_rejections p t fs score threshold a_hp g).events =
      detect_events p t fs score threshold a_hp g := by
  unfold detect_events_with_rejections detect_events
  have h := OffCtx.rejLoop_events_eq (OffCtx.make p t fs score threshold a_hp g)
    hgate hlenA hlenG hA hG (candidatesOf score threshold)
    (fun i hi => by
      rw [candidatesOf, List.mem_filter] at hi
      exact List.mem_range.mp hi.1)
    RejState.init
  exact h

/-- Witness instantiating C9_rejections_events_equal on the concrete
counterexample arrays (which are NaN-free). -/
theorem C9_rejections_events_equal_witness :
    (detect_events_with_rejections cxP cxT 1 cxScore cxThr cxAhp cxG).events =
      detect_events cxP cxT 1 cxScore cxThr cxAhp cxG := by
  apply C9_rejections_events_equal
  · rw [show pyround (cxP.gatewin_s * 1) = 0 from pyround_ofInt 0 _ (by norm_num [cxP])]
  · norm_num [cxScore, cxAhp]
  · norm_num [cxScore, cxG]
  · intro x hx
    simp only [cxAhp, List.mem_cons, List.not_mem_nil, or_false] at hx
    rcases hx with rfl | rfl | rfl | rfl | rfl <;> rfl
  · intro x hx
    simp only [cxG, List.mem_cons, List.not_mem_nil, or_false] at hx
    rcases hx with rfl | rfl | rfl | rfl | rfl <;> rfl

/-- C10: every streaming event carries index -1, while every offline
event carries the index of the sample at which it was detected: its
score strictly exceeded the threshold there and its recorded time,
score and threshold are the arrays' values at that index. -/
theorem C10_event_index_convention :
    (∀ (p : StreamingParams) (samples : List StreamSample),
      ∀ e ∈ StreamingPhysiologicalDetector.detect_streaming p samples,
        e.index = -1) ∧
    (∀ (p : StationaryParams) (t : List ℚ) (fs : ℚ)
        (score threshold a_hp g : List FVal),
      ∀ e ∈ detect_events p t fs score threshold a_hp g,
        ∃ i : ℕ, i < score.length ∧
          FVal.gtb (score.getD i none) (threshold.getD i none) = true ∧
          e.index = (i:ℤ) ∧ e.time = t.getD i 0 ∧ e.score = score.getD i none ∧
          e.threshold = threshold.getD i none) := by
  constructor
  · intro p samples e he
    exact (StreamingPhysiologicalDetector.detect_streaming_spec p samples).2 e he
  · intro p t fs score threshold a_hp g e he
    obtain ⟨i, hi, hgt, rfl⟩ :=
      (detect_events_spec p t fs score threshold a_hp g).2 e he
    exact ⟨i, hi, hgt, rfl, rfl, rfl, rfl⟩

namespace OffCtx

/-- Cardinality of the set of candidate indices recorded in the two gate
buckets (a candidate in both buckets counts once). -/
def idxUnionCard (st : RejState) : ℕ :=
  ((st.acc_gates.map OffEvent.index) ++ (st.gyro_gates.map OffEvent.index)).toFinset.card

/-- The accounting measure: accepted events plus singly-counted
rejections. -/
def fateCount (st : RejState) : ℕ :=
  st.events.length + st.refractory.length + st.not_peak.length +
    st.min_iei.length + idxUnionCard st

/-- Every index stored anywhere in the state is below the bound b. -/
def FreshB (b : ℤ) (st : RejState) : Prop :=
  (∀ e ∈ st.events, e.index < b) ∧ (∀ e ∈ st.refractory, e.index < b) ∧
  (∀ e ∈ st.not_peak, e.index < b) ∧ (∀ e ∈ st.acc_gates, e.index < b) ∧
  (∀ e ∈ st.gyro_gates, e.index < b) ∧ (∀ e ∈ st.min_iei, e.index < b)

/-- Upcoming candidates strictly exceed every stored index. -/
def Fresh (cs : List ℕ) (st : RejState) : Prop :=
  ∀ i ∈ cs, FreshB (i:ℤ) st

/-- A candidate lands in at most one of the refractory, not_peak and
min_iei buckets. -/
def Disj (st : RejState) : Prop :=
  (∀ e1 ∈ st.refractory, ∀ e2 ∈ st.not_peak, e1.index ≠ e2.index) ∧
  (∀ e1 ∈ st.refractory, ∀ e2 ∈ st.min_iei, e1.index ≠ e2.index) ∧
  (∀ e1 ∈ st.not_peak, ∀ e2 ∈ st.min_iei, e1.index ≠ e2.index)

theorem toFinset_card_snoc_both (A B : List ℤ) (x : ℤ)
    (hx : x ∉ (A ++ B).toFinset) :
    ((A ++ [x]) ++ (B ++ [x])).toFinset.card = (A ++ B).toFinset.card + 1 := by
  have hset : ((A ++ [x]) ++ (B ++ [x])).toFinset = insert x (A ++ B).toFinset := by
    ext y
    simp only [List.mem_toFinset, List.mem_append, List.mem_singleton,
      Finset.mem_insert]
    tauto
  rw [hset, Finset.card_insert_of_not_mem hx]

theorem toFinset_card_snoc_left (A B : List ℤ) (x : ℤ)
    (hx : x ∉ (A ++ B).toFinset) :
    ((A ++ [x]) ++ B).toFinset.card = (A ++ B).toFinset.card + 1 := by
  have hset : ((A ++ [x]) ++ B).toFinset = insert x (A ++ B).toFinset := by
    ext y
    simp only [List.mem_toFinset, List.mem_append, List.mem_singleton,
      Finset.mem_insert]
    tauto
  rw [hset, Finset.card_insert_of_not_mem hx]

theorem toFinset_card_snoc_right (A B : List ℤ) (x : ℤ)
    (hx : x ∉ (A ++ B).toFinset) :
    (A ++ (B ++ [x])).toFinset.card = (A ++ B).toFinset.card + 1 := by
  have hset : (A ++ (B ++ [x])).toFinset = insert x (A ++ B).toFinset := by
    ext y
    simp only [List.mem_toFinset, List.mem_append, List.mem_singleton,
      Finset.mem_insert]
    tauto
  rw [hset, Finset.card_insert_of_not_mem hx]

theorem idxUnionCard_gateRecord (st : RejState) (cand : OffEvent) (a g : Bool)
    (hfA : ∀ e ∈ st.acc_gates, e.index < cand.index)
    (hfG : ∀ e ∈ st.gyro_gates, e.index < cand.index)
    (hfail : (a && g) = false) :
    idxUnionCard (gateRecord st cand a g) = idxUnionCard st + 1 := by
  have hnotmem : cand.index ∉
      ((st.acc_gates.map OffEvent.index) ++ (st.gyro_gates.map OffEvent.index)).toFinset := by
    rw [List.mem_toFinset, List.mem_append]
    rintro (h | h)
    · rcases List.mem_map.mp h with ⟨e, he, heq⟩
      have := hfA e he
      omega
    · rcases List.mem_map.mp h with ⟨e, he, heq⟩
      have := hfG e he
      omega
  unfold idxUnionCard
  rw [gateRecord_acc_gates, gateRecord_gyro_gates]
  rcases ha : a with _ | _ <;> rcases hg : g with _ | _
  · simp only [Bool.true_eq_false, eq_self_iff_true, if_true, if_false,
      List.map_append, List.map_cons, List.map_nil, List.append_nil]
    exact toFinset_card_snoc_both _ _ _ hnotmem
  · simp only [Bool.true_eq_false, eq_self_iff_true, if_true, if_false,
      List.map_append, List.map_cons, List.map_nil, List.append_nil]
    exact toFinset_card_snoc_left _ _ _ hnotmem
  · simp only [Bool.true_eq_false, eq_self_iff_true, if_true, if_false,
      List.map_append, List.map_cons, List.map_nil, List.append_nil]
    exact toFinset_card_snoc_right _ _ _ hnotmem
  · rw [ha, hg] at hfail
    simp at hfail

theorem gateRecord_pass (st : RejState) (cand : OffEvent) :
    gateRecord st cand true true = st := by
  unfold gateRecord
  simp

theorem rejLoop_accounting (ctx : OffCtx) :
    ∀ (cs : List ℕ), List.Pairwise (· < ·) cs → ∀ st : RejState,
      Fresh cs st → Disj st →
      fateCount (rejLoop ctx cs st) = fateCount st + cs.length ∧
      Disj (rejLoop ctx cs st) := by
  intro cs
  induction cs with
  | nil =>
    intro _ st _ hd
    exact ⟨by simp [rejLoop], hd⟩
  | cons i rest ih =>
    intro hp st hfresh hdisj
    have hpc := List.pairwise_cons.mp hp
    obtain ⟨hfE, hfR, hfN, hfA, hfG, hfM⟩ := hfresh i (List.mem_cons_self _ _)
    have hfreshR : ∀ j ∈ rest, FreshB (j:ℤ) st :=
      fun j hj => hfresh j (List.mem_cons_of_mem _ hj)
    have hij : ∀ j ∈ rest, (i:ℤ) < (j:ℤ) :=
      fun j hj => by exact_mod_cast hpc.1 j hj
    have hcandidx : (ctx.mkCandidate i).index = (i:ℤ) := rfl
    obtain ⟨hd1, hd2, hd3⟩ := hdisj
    unfold rejLoop
    dsimp only
    split_ifs with h1 h2 h3
    · -- refractory
      have hfresh' : Fresh rest { st with refractory := st.refractory ++ [ctx.mkCandidate i] } := by
        intro j hj
        obtain ⟨a1,a2,a3,a4,a5,a6⟩ := hfreshR j hj
        refine ⟨a1, ?_, a3, a4, a5, a6⟩
        intro e he
        rcases List.mem_append.mp he with he | he
        · exact a2 e he
        · rw [List.mem_singleton] at he
          subst he
          rw [hcandidx]
          exact hij j hj
      have hdisj' : Disj { st with refractory := st.refractory ++ [ctx.mkCandidate i] } := by
        refine ⟨?_, ?_, hd3⟩
        · intro e1 he1 e2 he2
          rcases List.mem_append.mp he1 with he1 | he1
          · exact hd1 e1 he1 e2 he2
          · rw [List.mem_singleton] at he1
            subst he1
            rw [hcandidx]
            have := hfN e2 he2
            omega
        · intro e1 he1 e2 he2
          rcases List.mem_append.mp he1 with he1 | he1
          · exact hd2 e1 he1 e2 he2
          · rw [List.mem_singleton] at he1
            subst he1
            rw [hcandidx]
            have := hfM e2 he2
            omega
      obtain ⟨hc, hd⟩ := ih hpc.2 _ hfresh' hdisj'
      refine ⟨?_, hd⟩
      rw [hc]
      have hstep : fateCount { st with refractory := st.refractory ++ [ctx.mkCandidate i] }
          = fateCount st + 1 := by
        unfold fateCount idxUnionCard
        simp only [List.length_append, List.length_singleton]
        omega
      rw [hstep, List.length_cons]
      omega
    · -- not_peak
      have hfresh' : Fresh rest { st with not_peak := st.not_peak ++ [ctx.mkCandidate i] } := by
        intro j hj
        obtain ⟨a1,a2,a3,a4,a5,a6⟩ := hfreshR j hj
        refine ⟨a1, a2, ?_, a4, a5, a6⟩
        intro e he
        rcases List.mem_append.mp he with he | he
        · exact a3 e he
        · rw [List.mem_singleton] at he
          subst he
          rw [hcandidx]
          exact hij j hj
      have hdisj' : Disj { st with not_peak := st.not_peak ++ [ctx.mkCandidate i] } := by
        refine ⟨?_, hd2, ?_⟩
        · intro e1 he1 e2 he2
          rcases List.mem_append.mp he2 with he2 | he2
          · exact hd1 e1 he1 e2 he2
          · rw [List.mem_singleton] at he2
            subst he2
            rw [hcandidx]
            have := hfR e1 he1
            omega
        · intro e1 he1 e2 he2
          rcases List.mem_append.mp he1 with he1 | he1
          · exact hd3 e1 he1 e2 he2
          · rw [List.mem_singleton] at he1
            subst he1
            rw [hcandidx]
            have := hfM e2 he2
            omega
      obtain ⟨hc, hd⟩ := ih hpc.2 _ hfresh' hdisj'
      refine ⟨?_, hd⟩
      rw [hc]
      have hstep : fateCount { st with not_peak := st.not_peak ++ [ctx.mkCandidate i] }
          = fateCount st + 1 := by
        unfold fateCount idxUnionCard
        simp only [List.length_append, List.length_singleton]
        omega
      rw [hstep, List.length_cons]
      omega
    · -- gate failure: recorded in one or both gate buckets
      have hfresh' : Fresh rest (gateRecord st (ctx.mkCandidate i)
          (FVal.geb (ctx.gatesMax i).1 (some ctx.acc_gate))
          (FVal.geb (ctx.gatesMax i).2 (some ctx.gyro_gate))) := by
        intro j hj
        obtain ⟨a1,a2,a3,a4,a5,a6⟩ := hfreshR j hj
        refine ⟨?_, ?_, ?_, ?_, ?_, ?_⟩
        · rw [gateRecord_events]
          exact a1
        · rw [gateRecord_refractory]
          exact a2
        · rw [gateRecord_not_peak]
          exact a3
        · rw [gateRecord_acc_gates]
          intro e he
          rcases List.mem_append.mp he with he | he
          · exact a4 e he
          · split_ifs at he
            · rw [List.mem_singleton] at he
              subst he
              rw [hcandidx]
              exact hij j hj
            · simp at he
        · rw [gateRecord_gyro_gates]
          intro e he
          rcases List.mem_append.mp he with he | he
          · exact a5 e he
          · split_ifs at he
            · rw [List.mem_singleton] at he
              subst he
              rw [hcandidx]
              exact hij j hj
            · simp at he
        · rw [gateRecord_min_iei]
          exact a6
      have hdisj' : Disj (gateRecord st (ctx.mkCandidate i)
          (FVal.geb (ctx.gatesMax i).1 (some ctx.acc_gate))
          (FVal.geb (ctx.gatesMax i).2 (some ctx.gyro_gate))) := by
        rw [Disj, gateRecord_refractory, gateRecord_not_peak, gateRecord_min_iei]
        exact ⟨hd1, hd2, hd3⟩
      obtain ⟨hc, hd⟩ := ih hpc.2 _ hfresh' hdisj'
      refine ⟨?_, hd⟩
      rw [hc]
      have hstep : fateCount (gateRecord st (ctx.mkCandidate i)
          (FVal.geb (ctx.gatesMax i).1 (some ctx.acc_gate))
          (FVal.geb (ctx.gatesMax i).2 (some ctx.gyro_gate)))
          = fateCount st + 1 := by
        unfold fateCount
        rw [gateRecord_events, gateRecord_refractory, gateRecord_not_peak,
          gateRecord_min_iei,
          idxUnionCard_gateRecord st (ctx.mkCandidate i) _ _
            (by rw [hcandidx]; exact hfA) (by rw [hcandidx]; exact hfG) h3]
        omega
      rw [hstep, List.length_cons]
      omega
    · -- gates passed
      have hpass : (FVal.geb (ctx.gatesMax i).1 (some ctx.acc_gate)) = true ∧
          (FVal.geb (ctx.gatesMax i).2 (some ctx.gyro_gate)) = true := by
        rw [← Bool.and_eq_true]
        rcases hb : ((ctx.gatesMax i).1.geb (some ctx.acc_gate) &&
            (ctx.gatesMax i).2.geb (some ctx.gyro_gate)) with _ | _
        · exact absurd hb h3
        · rfl
      rw [hpass.1, hpass.2, gateRecord_pass]
      rcases hl : st.events.getLast? with _ | elast
      · -- first event accepted
        dsimp only
        have hfresh' : Fresh rest ({ st with events := st.events ++ [ctx.mkCandidate i], last := (i:ℤ) }) := by
          intro j hj
          obtain ⟨a1,a2,a3,a4,a5,a6⟩ := hfreshR j hj
          refine ⟨?_, a2, a3, a4, a5, a6⟩
          intro e he
          rcases List.mem_append.mp he with he | he
          · exact a1 e he
          · rw [List.mem_singleton] at he
            subst he
            rw [hcandidx]
            exact hij j hj
        have hdisj' : Disj ({ st with events := st.events ++ [ctx.mkCandidate i], last := (i:ℤ) }) := ⟨hd1, hd2, hd3⟩
        obtain ⟨hc, hd⟩ := ih hpc.2 _ hfresh' hdisj'
        refine ⟨?_, hd⟩
        rw [hc]
        have hstep : fateCount ({ st with events := st.events ++ [ctx.mkCandidate i], last := (i:ℤ) }) = fateCount st + 1 := by
          unfold fateCount idxUnionCard
          simp only [List.length_append, List.length_singleton]
          omega
        rw [hstep, List.length_cons]
        omega
      · dsimp only
        split_ifs with h4
        · -- min_iei bucket
          have hfresh' : Fresh rest { st with min_iei := st.min_iei ++ [ctx.mkCandidate i] } := by
            intro j hj
            obtain ⟨a1,a2,a3,a4,a5,a6⟩ := hfreshR j hj
            refine ⟨a1, a2, a3, a4, a5, ?_⟩
            intro e he
            rcases List.mem_append.mp he with he | he
            · exact a6 e he
            · rw [List.mem_singleton] at he
              subst he
              rw [hcandidx]
              exact hij j hj
          have hdisj' : Disj { st with min_iei := st.min_iei ++ [ctx.mkCandidate i] } := by
            refine ⟨hd1, ?_, ?_⟩
            · intro e1 he1 e2 he2
              rcases List.mem_append.mp he2 with he2 | he2
              · exact hd2 e1 he1 e2 he2
              · rw [List.mem_singleton] at he2
                subst he2
                rw [hcandidx]
                have := hfR e1 he1
                omega
            · intro e1 he1 e2 he2
              rcases List.mem_append.mp he2 with he2 | he2
              · exact hd3 e1 he1 e2 he2
              · rw [List.mem_singleton] at he2
                subst he2
                rw [hcandidx]
                have := hfN e1 he1
                omega
          obtain ⟨hc, hd⟩ := ih hpc.2 _ hfresh' hdisj'
          refine ⟨?_, hd⟩
          rw [hc]
          have hstep : fateCount { st with min_iei := st.min_iei ++ [ctx.mkCandidate i] }
              = fateCount st + 1 := by
            unfold fateCount idxUnionCard
            simp only [List.length_append, List.length_singleton]
            omega
          rw [hstep, List.length_cons]
          omega
        · -- accepted event
          have hfresh' : Fresh rest ({ st with events := st.events ++ [ctx.mkCandidate i], last := (i:ℤ) }) := by
            intro j hj
            obtain ⟨a1,a2,a3,a4,a5,a6⟩ := hfreshR j hj
            refine ⟨?_, a2, a3, a4, a5, a6⟩
            intro e he
            rcases List.mem_append.mp he with he | he
            · exact a1 e he
            · rw [List.mem_singleton] at he
              subst he
              rw [hcandidx]
              exact hij j hj
          have hdisj' : Disj ({ st with events := st.events ++ [ctx.mkCandidate i], last := (i:ℤ) }) := ⟨hd1, hd2, hd3⟩
          obtain ⟨hc, hd⟩ := ih hpc.2 _ hfresh' hdisj'
          refine ⟨?_, hd⟩
          rw [hc]
          have hstep : fateCount ({ st with events := st.events ++ [ctx.mkCandidate i], last := (i:ℤ) }) = fateCount st + 1 := by
            unfold fateCount idxUnionCard
            simp only [List.length_append, List.length_singleton]
            omega
          rw [hstep, List.length_cons]
          omega

end OffCtx

/-- C3: for every input and config (with non-degenerate windows), the
rejection-collecting scan partitions the candidates: accepted events
plus refractory, not-peak and min-iei rejections plus the set of
candidates failing at least one gate (counted once even when recorded in
both gate buckets) equals the number of indices with
score > threshold; and no candidate appears in more than one of the
refractory, not_peak and min_iei buckets. -/
theorem C3_rejection_accounting (p : StationaryParams) (t : List ℚ) (fs : ℚ)
    (score threshold a_hp g : List FVal)
    (hpw : 0 ≤ pyround (p.peakwin_s * fs))
    (hgate : 0 ≤ pyround (p.gatewin_s * fs)) :
    (detect_events_with_rejections p t fs score threshold a_hp g).events.length +
      (detect_events_with_rejections p t fs score threshold a_hp g).refractory.length +
      (detect_events_with_rejections p t fs score threshold a_hp g).not_peak.length +
      (detect_events_with_rejections p t fs score threshold a_hp g).min_iei.length +
      (((detect_events_with_rejections p t fs score threshold a_hp g).acc_gates.map
          OffEvent.index) ++
        ((detect_events_with_rejections p t fs score threshold a_hp g).gyro_gates.map
          OffEvent.index)).toFinset.card
      = (candidatesOf score threshold).length ∧
    (∀ e1 ∈ (detect_events_with_rejections p t fs score threshold a_hp g).refractory,
      ∀ e2 ∈ (detect_events_with_rejections p t fs score threshold a_hp g).not_peak,
        e1.index ≠ e2.index) ∧
    (∀ e1 ∈ (detect_events_with_rejections p t fs score threshold a_hp g).refractory,
      ∀ e2 ∈ (detect_events_with_rejections p t fs score threshold a_hp g).min_iei,
        e1.index ≠ e2.index) ∧
    (∀ e1 ∈ (detect_events_with_rejections p t fs score threshold a_hp g).not_peak,
      ∀ e2 ∈ (detect_events_with_rejections p t fs score threshold a_hp g).min_iei,
        e1.index ≠ e2.index) := by
  have hpair : List.Pairwise (· < ·) (candidatesOf score threshold) :=
    List.Pairwise.sublist (List.filter_sublist _) (List.pairwise_lt_range _)
  have hfresh : OffCtx.Fresh (candidatesOf score threshold) RejState.init := by
    intro i _
    refine ⟨?_, ?_, ?_, ?_, ?_, ?_⟩ <;> intro e he <;> simp [RejState.init] at he
  have hdisj : OffCtx.Disj RejState.init := by
    refine ⟨?_, ?_, ?_⟩ <;> intro e1 he1 <;> simp [RejState.init] at he1
  obtain ⟨hcount, hd⟩ := OffCtx.rejLoop_accounting
    (OffCtx.make p t fs score threshold a_hp g) (candidatesOf score threshold)
    hpair RejState.init hfresh hdisj
  have hinit : OffCtx.fateCount RejState.init = 0 := by
    unfold OffCtx.fateCount OffCtx.idxUnionCard RejState.init
    simp
  rw [hinit] at hcount
  constructor
  · have : OffCtx.fateCount (detect_events_with_rejections p t fs score threshold a_hp g)
        = (candidatesOf score threshold).length := by
      unfold detect_events_with_rejections
      rw [hcount]
      omega
    unfold OffCtx.fateCount OffCtx.idxUnionCard at this
    omega
  · exact hd

/-- Witness instantiating C3_rejection_accounting on the concrete
counterexample arrays, which produce 2 candidates and 2 events. -/
theorem C3_rejection_accounting_witness :
    (detect_events_with_rejections cxP cxT 1 cxScore cxThr cxAhp cxG).events.length +
      (detect_events_with_rejections cxP cxT 1 cxScore cxThr cxAhp cxG).refractory.length +
      (detect_events_with_rejections cxP cxT 1 cxScore cxThr cxAhp cxG).not_peak.length +
      (detect_events_with_rejections cxP cxT 1 cxScore cxThr cxAhp cxG).min_iei.length +
      (((detect_events_with_rejections cxP cxT 1 cxScore cxThr cxAhp cxG).acc_gates.map
          OffEvent.index) ++
        ((detect_events_with_rejections cxP cxT 1 cxScore cxThr cxAhp cxG).gyro_gates.map
          OffEvent.index)).toFinset.card
      = (candidatesOf cxScore cxThr).length := by
  have h := C3_rejection_accounting cxP cxT 1 cxScore cxThr cxAhp cxG
    (by rw [show pyround (cxP.peakwin_s * 1) = 0 from pyround_ofInt 0 _ (by norm_num [cxP])])
    (by rw [show pyround (cxP.gatewin_s * 1) = 0 from pyround_ofInt 0 _ (by norm_num [cxP])])
  exact h.1

/-! ## TemplateVerifier and the two-stage decision loop
(src/tkeo_pinch_detector.py, lines 168-221 and 437-591)

The numeric core of template matching (linear resampling to the template
length, normalisation, and the lag-searched normalised cross-correlation
of lines 203-217) involves square roots and is abstracted here as a
parameter nccMax giving the maximal NCC over the stored templates; the
guard structure of verify_candidate around it is embedded literally.
The decision loop of process_session (lines 479-561) is embedded over
the per-sample arrays (timestamps, accel_tkeo, gyro_tkeo, fusion_score)
that its front end (band-pass filter, per-axis TKEO, fusion) computes,
with n_samples the length of the TKEO arrays (equal to len(accel_data)
since filtering and TKEO preserve length).  Debug-only recording
(gate_events, gate_triggers, template_scores, the per-sample threshold
traces and debug_data) is dropped: none of it feeds the returned event
list.  The accel and gyro baseline trackers are still updated every
sample as in the source, though only the fusion tracker's threshold
gates detection. -/

structure TemplateVerifier where
  template_length : ℕ
  templates : List (List ℚ)
  confidence_threshold : ℚ

namespace TemplateVerifier

/-- TemplateVerifier.verify_candidate: with no stored templates it
returns (0.0, False) immediately; otherwise max_ncc is the (abstracted)
maximal normalised cross-correlation against the templates and the
verdict is max_ncc >= confidence_threshold. -/
def verify_candidate (nccMax : List (List ℚ) → List ℚ → ℚ)
    (tv : TemplateVerifier) (signal_window : List ℚ) : ℚ × Bool :=
  if tv.templates.length = 0 then (0, false)
  else
    let max_ncc := nccMax tv.templates signal_window
    (max_ncc, decide (tv.confidence_threshold ≤ max_ncc))

end TemplateVerifier

/-- Configuration fields of AdvancedPinchDetector used by the decision
loop; the template confidence lives on the TemplateVerifier (wired from
config by __init__). -/
structure PinchConfig where
  fs : ℚ
  baseline_alpha : ℚ
  hampel_k : ℚ
  gate_k_fusion : ℚ
  refractory_period_s : ℚ
  verification_window_s : ℚ

/-- Entries of the detected_events list built by process_session. -/
structure PinchEvent where
  index : ℕ
  time : ℚ
  confidence : ℚ
  accel_tkeo : ℚ
  gyro_tkeo : ℚ
  fusion_score : ℚ

/-- Mutable state of the process_session loop: the three baseline
trackers, last_event_time (None models the initial -inf) and the
accumulated detected_events. -/
structure PinchState where
  accel_baseline : BaselineTracker
  gyro_baseline : BaselineTracker
  fusion_baseline : BaselineTracker
  last_event_time : Option ℚ
  detected_events : List PinchEvent

/-- Refractory check current_time - last_event_time < refractory_period;
with last_event_time = -inf (None here) the difference is +inf and the
check is false. -/
def refrActive : Option ℚ → ℚ → ℚ → Bool
  | none, _, _ => false
  | some l, t, refr => decide (t - l < refr)

/-- Stage-2 decision at a gate-triggered sample (lines 534-548): extract
the verification window, verify against templates, and bypass the
verdict with (0.8, True) when confidence_threshold <= 0.05 (the DEBUG
branch of lines 545-548).  Outside the full-window case the verdict
stays (0.0, False). -/
def pinchDecide (nccMax : List (List ℚ) → List ℚ → ℚ) (tv : TemplateVerifier)
    (n_samples : ℕ) (fusion_score : List ℚ) (V : ℤ) (i : ℕ) : ℚ × Bool :=
  let start_idx := max 0 ((i : ℤ) - Int.fdiv V 2)
  let end_idx := min (n_samples : ℤ) ((i : ℤ) + Int.fdiv V 2)
  if V ≤ end_idx - start_idx then
    let r0 := TemplateVerifier.verify_candidate nccMax tv
      (sliceL fusion_score start_idx.toNat (start_idx + V).toNat)
    if tv.confidence_threshold ≤ 0.05 then (0.8, true) else r0
  else (0, false)

/-- Stage-1 gate (line 505 together with line 533): when fusion_score[i]
exceeds the fusion threshold run stage-2 verification, otherwise the
verdict stays at its initialisation (0.0, False) from lines 530-531. -/
def pinchGate (nccMax : List (List ℚ) → List ℚ → ℚ) (tv : TemplateVerifier)
    (n_samples : ℕ) (fusion_score : List ℚ) (V : ℤ) (i : ℕ)
    (fusion_threshold : ℚ) : ℚ × Bool :=
  if fusion_threshold < fusion_score.getD i 0
  then pinchDecide nccMax tv n_samples fusion_score V i
  else (0, false)

/-- Event emission (lines 552-561): on a valid verdict append the event
record and set last_event_time to the current time. -/
def pinchEmit (st1 : PinchState) (accel_tkeo gyro_tkeo fusion_score : List ℚ)
    (i : ℕ) (current_time : ℚ) (r : ℚ × Bool) : PinchState :=
  if r.2 = true then
    { st1 with
      detected_events := st1.detected_events ++
        [{ index := i, time := current_time, confidence := r.1,
           accel_tkeo := accel_tkeo.getD i 0,
           gyro_tkeo := gyro_tkeo.getD i 0,
           fusion_score := fusion_score.getD i 0 }],
      last_event_time := some current_time }
  else st1

/-- Body of the process_session loop at sample i: update the three
baselines, skip gating during warm-up, skip everything during the
refractory period, otherwise gate on fusion_score[i] > fusion_threshold,
run stage-2 verification, and on a valid event append it and set
last_event_time. -/
def pinchStep (nccMax : List (List ℚ) → List ℚ → ℚ) (cfg : PinchConfig)
    (tv : TemplateVerifier) (n_samples : ℕ)
    (timestamps accel_tkeo gyro_tkeo fusion_score : List ℚ)
    (warmup V : ℤ) (st : PinchState) (i : ℕ) : PinchState :=
  let st1 := { st with
    accel_baseline := st.accel_baseline.update (accel_tkeo.getD i 0),
    gyro_baseline := st.gyro_baseline.update (gyro_tkeo.getD i 0),
    fusion_baseline := st.fusion_baseline.update (fusion_score.getD i 0) }
  if (i : ℤ) < warmup then st1
  else
    let current_time := timestamps.getD i 0
    if refrActive st1.last_event_time current_time cfg.refractory_period_s then st1
    else
      pinchEmit st1 accel_tkeo gyro_tkeo fusion_score i current_time
        (pinchGate nccMax tv n_samples fusion_score V i
          (st1.fusion_baseline.get_threshold cfg.gate_k_fusion))

/-- The for-loop of process_session over sample indices. -/
def pinchLoop (nccMax : List (List ℚ) → List ℚ → ℚ) (cfg : PinchConfig)
    (tv : TemplateVerifier) (n_samples : ℕ)
    (timestamps accel_tkeo gyro_tkeo fusion_score : List ℚ)
    (warmup V : ℤ) : List ℕ → PinchState → PinchState
  | [], st => st
  | i :: rest, st =>
    pinchLoop nccMax cfg tv n_samples timestamps accel_tkeo gyro_tkeo fusion_score
      warmup V rest
      (pinchStep nccMax cfg tv n_samples timestamps accel_tkeo gyro_tkeo fusion_score
        warmup V st i)

/-- AdvancedPinchDetector.process_session restricted to its decision
loop: warmup_samples = int(0.5 * fs), verification_window_samples =
int(verification_window_s * fs), fresh baseline trackers, and the loop
over all samples; returns detected_events. -/
def process_session (nccMax : List (List ℚ) → List ℚ → ℚ) (cfg : PinchConfig)
    (tv : TemplateVerifier)
    (timestamps accel_tkeo gyro_tkeo fusion_score : List ℚ) : List PinchEvent :=
  (pinchLoop nccMax cfg tv accel_tkeo.length timestamps accel_tkeo gyro_tkeo
    fusion_score (pytrunc (0.5 * cfg.fs))
    (pytrunc (cfg.verification_window_s * cfg.fs))
    (List.range accel_tkeo.length)
    { accel_baseline := BaselineTracker.init cfg.baseline_alpha cfg.hampel_k,
      gyro_baseline := BaselineTracker.init cfg.baseline_alpha cfg.hampel_k,
      fusion_baseline := BaselineTracker.init cfg.baseline_alpha cfg.hampel_k,
      last_event_time := none,
      detected_events := [] }).detected_events

/-- With an empty template set and a confidence threshold above the
debug-bypass cutoff, stage-2 verification never validates. -/
theorem pinchDecide_snd_false (nccMax : List (List ℚ) → List ℚ → ℚ)
    (tv : TemplateVerifier) (n_samples : ℕ) (fusion_score : List ℚ) (V : ℤ) (i : ℕ)
    (hT : tv.templates = []) (hc : (0.05 : ℚ) < tv.confidence_threshold) :
    (pinchDecide nccMax tv n_samples fusion_score V i).2 = false := by
  simp only [pinchDecide]
  split_ifs with h1 h2
  · exact absurd h2 (not_le.mpr hc)
  · simp [TemplateVerifier.verify_candidate, hT]
  · rfl

/-- With an empty template set and a confidence threshold above the
debug-bypass cutoff, the gate verdict is never valid. -/
theorem pinchGate_snd_false (nccMax : List (List ℚ) → List ℚ → ℚ)
    (tv : TemplateVerifier) (n_samples : ℕ) (fusion_score : List ℚ) (V : ℤ) (i : ℕ)
    (thr : ℚ)
    (hT : tv.templates = []) (hc : (0.05 : ℚ) < tv.confidence_threshold) :
    (pinchGate nccMax tv n_samples fusion_score V i thr).2 = false := by
  simp only [pinchGate]
  split_ifs with h1
  · exact pinchDecide_snd_false nccMax tv n_samples fusion_score V i hT hc
  · rfl

/-- An invalid verdict leaves detected_events unchanged. -/
theorem pinchEmit_events (st1 : PinchState) (accel_tkeo gyro_tkeo fusion_score : List ℚ)
    (i : ℕ) (current_time : ℚ) (r : ℚ × Bool) (hr : r.2 = false) :
    (pinchEmit st1 accel_tkeo gyro_tkeo fusion_score i current_time r).detected_events
      = st1.detected_events := by
  simp only [pinchEmit, hr]
  rfl

/-- With an empty template set and a confidence threshold above the
debug-bypass cutoff, a loop step never appends an event. -/
theorem pinchStep_events (nccMax : List (List ℚ) → List ℚ → ℚ) (cfg : PinchConfig)
    (tv : TemplateVerifier) (n_samples : ℕ)
    (timestamps accel_tkeo gyro_tkeo fusion_score : List ℚ)
    (warmup V : ℤ) (st : PinchState) (i : ℕ)
    (hT : tv.templates = []) (hc : (0.05 : ℚ) < tv.confidence_threshold) :
    (pinchStep nccMax cfg tv n_samples timestamps accel_tkeo gyro_tkeo fusion_score
      warmup V st i).detected_events = st.detected_events := by
  simp only [pinchStep]
  split_ifs with h1 h2
  · rfl
  · rfl
  · rw [pinchEmit_events _ _ _ _ _ _ _
      (pinchGate_snd_false nccMax tv n_samples fusion_score V i _ hT hc)]

/-- With an empty template set and a confidence threshold above the
debug-bypass cutoff, the whole loop leaves detected_events unchanged. -/
theorem pinchLoop_events (nccMax : List (List ℚ) → List ℚ → ℚ) (cfg : PinchConfig)
    (tv : TemplateVerifier) (n_samples : ℕ)
    (timestamps accel_tkeo gyro_tkeo fusion_score : List ℚ)
    (warmup V : ℤ) (idxs : List ℕ) (st : PinchState)
    (hT : tv.templates = []) (hc : (0.05 : ℚ) < tv.confidence_threshold) :
    (pinchLoop nccMax cfg tv n_samples timestamps accel_tkeo gyro_tkeo fusion_score
      warmup V idxs st).detected_events = st.detected_events := by
  induction idxs generalizing st with
  | nil => rfl
  | cons i rest ih =>
    rw [pinchLoop, ih, pinchStep_events nccMax cfg tv n_samples timestamps accel_tkeo
      gyro_tkeo fusion_score warmup V st i hT hc]

/-- Concrete NCC abstraction for the concrete runs below: with no
templates it is never consulted. -/
def ncc7 : List (List ℚ) → List ℚ → ℚ := fun _ _ => 0

/-- Verifier with no templates and the debug confidence threshold 0.05
(reachable through config template_confidence). -/
def tv7 : TemplateVerifier :=
  { template_length := 16, templates := [], confidence_threshold := 0.05 }

/-- Config for the concrete run: fs = 2 Hz, default baseline_alpha 0.02
and hampel_k 3.0 and gate_k_fusion 3.0 and refractory 0.2 s, and a zero
verification window so every gate trigger sees a full window. -/
def cfg7 : PinchConfig :=
  { fs := 2, baseline_alpha := 1/50, hampel_k := 3, gate_k_fusion := 3,
    refractory_period_s := 1/5, verification_window_s := 0 }

/-- Post-initialisation tracker state reached in the concrete run:
mean 0, untouched sigma 1e-6, the given history. -/
def bt7 (h : List ℚ) : BaselineTracker :=
  { alpha := 1/50, hampel_k := 3, mean := 0, sigma := 1/1000000, history := h, initialized := true }

/-- Loop state after the first sample of the concrete run. -/
def st7a : PinchState :=
  { accel_baseline := bt7 [0], gyro_baseline := bt7 [0], fusion_baseline := bt7 [0], last_event_time := none, detected_events := [] }

/-- Loop state after the second sample of the concrete run: one event
emitted through the debug bypass. -/
def st7b : PinchState :=
  { accel_baseline := bt7 [0, 0], gyro_baseline := bt7 [0, 0], fusion_baseline := bt7 [0, 1], last_event_time := some (1/2), detected_events := [{ index := 1, time := 1/2, confidence := 4/5, accel_tkeo := 0, gyro_tkeo := 0, fusion_score := 1 }] }

/-- C7: verify_candidate does return (0.0, False) on an empty template
set, but process_session does not consequently emit zero events: with
template confidence 0.05 the debug bypass (lines 546-548) validates
every gate trigger, and a two-sample session with a fusion jump emits
one event despite the empty template set. -/
theorem C7_counterexample :
    tv7.templates = [] ∧
    TemplateVerifier.verify_candidate ncc7 tv7 [] = (0, false) ∧
    (process_session ncc7 cfg7 tv7 [0, 1/2] [0, 0] [0, 0] [0, 1]).length = 1 := by
  refine ⟨rfl, rfl, ?_⟩
  have hw : pytrunc ((0.5 : ℚ) * cfg7.fs) = 1 := by
    norm_num [pytrunc, cfg7]
  have hV : pytrunc (cfg7.verification_window_s * cfg7.fs) = 0 := by
    norm_num [pytrunc, cfg7]
  unfold process_session
  rw [hw, hV]
  show (pinchLoop ncc7 cfg7 tv7 2 [0, 1/2] [0, 0] [0, 0] [0, 1] 1 0 [0, 1]
    { accel_baseline := BaselineTracker.init (1/50) 3,
      gyro_baseline := BaselineTracker.init (1/50) 3,
      fusion_baseline := BaselineTracker.init (1/50) 3,
      last_event_time := none,
      detected_events := [] }).detected_events.length = 1
  have s1 : pinchStep ncc7 cfg7 tv7 2 [0, 1/2] [0, 0] [0, 0] [0, 1] 1 0
      { accel_baseline := BaselineTracker.init (1/50) 3,
        gyro_baseline := BaselineTracker.init (1/50) 3,
        fusion_baseline := BaselineTracker.init (1/50) 3,
        last_event_time := none,
        detected_events := [] } 0 = st7a := by
    norm_num [pinchStep, BaselineTracker.update, BaselineTracker.meanStep,
      BaselineTracker.histStep, BaselineTracker.updateSigma, BaselineTracker.init,
      st7a, bt7]
  have s2 : pinchStep ncc7 cfg7 tv7 2 [0, 1/2] [0, 0] [0, 0] [0, 1] 1 0 st7a 1 = st7b := by
    have hf : Int.fdiv 0 2 = 0 := rfl
    norm_num [pinchStep, pinchEmit, pinchGate, pinchDecide, refrActive,
      TemplateVerifier.verify_candidate, sliceL, tv7, cfg7, st7a, st7b, bt7,
      BaselineTracker.update, BaselineTracker.meanStep, BaselineTracker.histStep,
      BaselineTracker.updateSigma, BaselineTracker.get_threshold, hf]
  rw [pinchLoop, s1, pinchLoop, s2, pinchLoop]
  rfl

/-- C7 amended: with no stored templates verify_candidate returns
(0.0, False) for every candidate window, and process_session emits zero
events on every input session PROVIDED the configured template
confidence exceeds the 0.05 debug-bypass cutoff; at or below that cutoff
the bypass can emit events with an empty template set. -/
theorem C7_empty_templates_amended (nccMax : List (List ℚ) → List ℚ → ℚ)
    (cfg : PinchConfig) (tv : TemplateVerifier) (w : List ℚ)
    (timestamps accel_tkeo gyro_tkeo fusion_score : List ℚ)
    (hT : tv.templates = []) (hc : (0.05 : ℚ) < tv.confidence_threshold) :
    TemplateVerifier.verify_candidate nccMax tv w = (0, false) ∧
    process_session nccMax cfg tv timestamps accel_tkeo gyro_tkeo fusion_score = [] := by
  constructor
  · simp [TemplateVerifier.verify_candidate, hT]
  · unfold process_session
    rw [pinchLoop_events _ _ _ _ _ _ _ _ _ _ _ _ hT hc]

/-- Verifier with no templates and the default confidence threshold
0.65, above the debug-bypass cutoff. -/
def tv7b : TemplateVerifier :=
  { template_length := 16, templates := [], confidence_threshold := 13/20 }

/-- Witness for C7_empty_templates_amended: at confidence 0.65 the same
two-sample session that the bypass turned into an event emits nothing
with an empty template set. -/
theorem C7_empty_templates_amended_witness :
    tv7b.templates = [] ∧ (0.05 : ℚ) < tv7b.confidence_threshold ∧
    (TemplateVerifier.verify_candidate ncc7 tv7b [] = (0, false) ∧
      process_session ncc7 cfg7 tv7b [0, 1/2] [0, 0] [0, 0] [0, 1] = []) :=
  ⟨rfl, by norm_num [tv7b],
    C7_empty_templates_amended ncc7 cfg7 tv7b [] [0, 1/2] [0, 0] [0, 0] [0, 1]
      rfl (by norm_num [tv7b])⟩

/-! ## SignalProcessor and StationaryDetector.detect
(src/analyze_session.py, lines 573-681)

The batch pipeline of the stationary detector over possibly-NaN float
arrays (FVal).  Pandas centered rolling windows of size w at position i
cover indices [i - w/2, i + (w-1)/2] clipped to the array; .mean() and
.median() skip NaNs and yield NaN when fewer than min_periods non-NaN
entries are present; .apply(raw=False) hands the whole window including
NaNs to the lambda (np.median propagating NaN) under the same
min_periods rule.  The square root of the 4-component fusion is
abstracted as a parameter sqrtFn applied to the rational sum of squares;
both runs of the determinism claim share it, as they share the machine
sqrt. -/

/-- Arithmetic mean of a list of rationals (0 on the empty list, which
is unreachable under the min_periods >= 1 used by every call). -/
def meanQ (l : List ℚ) : ℚ := if l.length = 0 then 0 else l.sum / l.length

/-- Centered rolling window of size w at position i: indices from
i - w/2 to i + (w-1)/2, clipped to the array. -/
def rollWindow (l : List FVal) (w i : ℕ) : List FVal :=
  sliceL l (i - w / 2) (i + (w - 1) / 2 + 1)

/-- Rolling mean with min_periods = mp: mean of the non-NaN window
entries when at least mp are present, else NaN. -/
def rollMeanF (l : List FVal) (w mp i : ℕ) : FVal :=
  let vals := (rollWindow l w i).filterMap id
  if mp ≤ vals.length then some (meanQ vals) else none

/-- Rolling median with min_periods = mp: median of the non-NaN window
entries when at least mp are present, else NaN. -/
def rollMedianF (l : List FVal) (w mp i : ℕ) : FVal :=
  let vals := (rollWindow l w i).filterMap id
  if mp ≤ vals.length then some (medianQ vals) else none

/-- np.median over a raw window: NaN on an empty window or one holding
any NaN, the rational median otherwise. -/
def npMedianF (l : List FVal) : FVal :=
  if (l.filterMap id).length = l.length ∧ l.length ≠ 0 then
    some (medianQ (l.filterMap id))
  else none

/-- Rolling apply with a raw-window function f: f sees the whole window
including NaNs, but the result is NaN when fewer than mp non-NaN entries
are present. -/
def rollApplyF (f : List FVal → FVal) (l : List FVal) (w mp i : ℕ) : FVal :=
  let win := rollWindow l w i
  if mp ≤ (win.filterMap id).length then f win else none

/-- SignalProcessor.hp_moving_mean: subtract the centered rolling mean
(window max(1, int(round(win * fs))), min_periods 1). -/
def hp_moving_mean (x : List FVal) (fs win : ℚ) : List FVal :=
  let w : ℕ := (max 1 (pyround (win * fs))).toNat
  (List.range x.length).map (fun i => FVal.sub (x.getD i none) (rollMeanF x w 1 i))

/-- np.gradient with spacing dx: one-sided differences at the edges,
central differences over 2*dx in the interior. -/
def npGradient (y : List FVal) (dx : ℚ) : List FVal :=
  (List.range y.length).map (fun i =>
    if i = 0 then FVal.div (FVal.sub (y.getD 1 none) (y.getD 0 none)) (some dx)
    else if i = y.length - 1 then
      FVal.div (FVal.sub (y.getD i none) (y.getD (i - 1) none)) (some dx)
    else FVal.div (FVal.sub (y.getD (i + 1) none) (y.getD (i - 1) none)) (some (2 * dx)))

/-- The MAD lambda of robust_z: np.median(np.abs(v - np.median(v))) over
the raw window, NaN-propagating. -/
def madWindowF (v : List FVal) : FVal :=
  npMedianF (v.map (fun u => FVal.abs (FVal.sub u (npMedianF v))))

/-- SignalProcessor.robust_z: window w = max(3, int(round(win * fs))),
min_periods max(1, w // 4); rolling median and rolling MAD, zero MADs
replaced by NaN and all NaNs filled with the median of the original MAD
series (1.0 when that median is itself NaN); returns
(x - med) / (1.4826 * mad + 1e-9). -/
def robust_z (x : List FVal) (fs win : ℚ) : List FVal :=
  let w : ℕ := (max 3 (pyround (win * fs))).toNat
  let mp : ℕ := max 1 (w / 4)
  let med := (List.range x.length).map (fun i => rollMedianF x w mp i)
  let mad := (List.range x.length).map (fun i => rollApplyF madWindowF x w mp i)
  let madNonNaN := mad.filterMap id
  let fill : ℚ := if madNonNaN.length ≠ 0 then medianQ madNonNaN else 1
  let madFilled := mad.map (fun m =>
    match m with
    | none => some fill
    | some q => if q = 0 then some fill else some q)
  (List.range x.length).map (fun i =>
    FVal.div (FVal.sub (x.getD i none) (med.getD i none))
      (FVal.add (FVal.mul (some 1.4826) (madFilled.getD i none)) (some 1e-9)))

/-- SignalProcessor.adaptive_threshold: window max(3, int(round(win*fs))),
min_periods max(1, int(round(0.75 * fs))); rolling apply of
median + k_mad * (1.4826 * MAD + 1e-9) over the raw window. -/
def adaptive_threshold (score : List FVal) (fs win k_mad : ℚ) : List FVal :=
  let w : ℕ := (max 3 (pyround (win * fs))).toNat
  let mp : ℕ := (max 1 (pyround (0.75 * fs))).toNat
  (List.range score.length).map (fun i =>
    rollApplyF (fun v =>
      FVal.add (npMedianF v)
        (FVal.mul (some k_mad)
          (FVal.add (FVal.mul (some 1.4826) (madWindowF v)) (some 1e-9))))
      score w mp i)

/-- The 4-component fusion score
sqrt(max(z_a,0)^2 + max(z_g,0)^2 + max(z_da,0)^2 + max(z_dg,0)^2), with
the square root abstracted by sqrtFn. -/
def fusionScore (sqrtFn : ℚ → ℚ) (z_a z_g z_da z_dg : List FVal) (n : ℕ) : List FVal :=
  (List.range n).map (fun i =>
    (FVal.add
      (FVal.add
        (FVal.add (FVal.sq (FVal.clamp0 (z_a.getD i none)))
          (FVal.sq (FVal.clamp0 (z_g.getD i none))))
        (FVal.sq (FVal.clamp0 (z_da.getD i none))))
      (FVal.sq (FVal.clamp0 (z_dg.getD i none)))).map sqrtFn)

/-- The result dict of StationaryDetector.detect: events, the dense
arrays, the z components and (when collected) the rejection buckets. -/
structure DetectResult where
  events : List OffEvent
  score : List FVal
  threshold : List FVal
  z_a : List FVal
  z_g : List FVal
  z_da : List FVal
  z_dg : List FVal
  a_hp : List FVal
  rejected : Option RejState

/-- StationaryDetector.detect: high-pass the acceleration magnitude,
differentiate, robust z-scores of the four components, fusion score,
adaptive threshold, then the event scan (plain or rejection-collecting). -/
def detect (sqrtFn : ℚ → ℚ) (p : StationaryParams) (t : List ℚ) (fs : ℚ)
    (a g : List FVal) (collect_rejections : Bool) : DetectResult :=
  let a_hp := hp_moving_mean a fs p.hp_win
  let da := npGradient a_hp (1 / fs)
  let dg := npGradient g (1 / fs)
  let z_a := robust_z a_hp fs p.thr_win
  let z_g := robust_z g fs p.thr_win
  let z_da := robust_z (da.map FVal.abs) fs p.thr_win
  let z_dg := robust_z (dg.map FVal.abs) fs p.thr_win
  let score := fusionScore sqrtFn z_a z_g z_da z_dg a_hp.length
  let threshold := adaptive_threshold score fs p.thr_win p.k_mad
  if collect_rejections then
    { events := (detect_events_with_rejections p t fs score threshold a_hp g).events,
      score := score, threshold := threshold,
      z_a := z_a, z_g := z_g, z_da := z_da, z_dg := z_dg, a_hp := a_hp,
      rejected := some (detect_events_with_rejections p t fs score threshold a_hp g) }
  else
    { events := detect_events p t fs score threshold a_hp g,
      score := score, threshold := threshold,
      z_a := z_a, z_g := z_g, z_da := z_da, z_dg := z_dg, a_hp := a_hp,
      rejected := none }

/-- C8: two runs of the offline detector on the same input data (time
base, sampling rate, acceleration and gyro magnitudes), the same config
and the same machine square root yield identical event lists and
identical score, threshold, z-component and a_hp arrays. -/
theorem C8_two_run_determinism (sqrtFn : ℚ → ℚ) (p1 p2 : StationaryParams)
    (t1 t2 : List ℚ) (fs1 fs2 : ℚ) (a1 a2 g1 g2 : List FVal) (cr1 cr2 : Bool)
    (hp : p1 = p2) (ht : t1 = t2) (hfs : fs1 = fs2) (ha : a1 = a2) (hg : g1 = g2)
    (hcr : cr1 = cr2) :
    (detect sqrtFn p1 t1 fs1 a1 g1 cr1).events = (detect sqrtFn p2 t2 fs2 a2 g2 cr2).events ∧
    (detect sqrtFn p1 t1 fs1 a1 g1 cr1).score = (detect sqrtFn p2 t2 fs2 a2 g2 cr2).score ∧
    (detect sqrtFn p1 t1 fs1 a1 g1 cr1).threshold = (detect sqrtFn p2 t2 fs2 a2 g2 cr2).threshold ∧
    (detect sqrtFn p1 t1 fs1 a1 g1 cr1).z_a = (detect sqrtFn p2 t2 fs2 a2 g2 cr2).z_a ∧
    (detect sqrtFn p1 t1 fs1 a1 g1 cr1).z_g = (detect sqrtFn p2 t2 fs2 a2 g2 cr2).z_g ∧
    (detect sqrtFn p1 t1 fs1 a1 g1 cr1).z_da = (detect sqrtFn p2 t2 fs2 a2 g2 cr2).z_da ∧
    (detect sqrtFn p1 t1 fs1 a1 g1 cr1).z_dg = (detect sqrtFn p2 t2 fs2 a2 g2 cr2).z_dg ∧
    (detect sqrtFn p1 t1 fs1 a1 g1 cr1).a_hp = (detect sqrtFn p2 t2 fs2 a2 g2 cr2).a_hp := by
  subst hp ht hfs ha hg hcr
  exact ⟨rfl, rfl, rfl, rfl, rfl, rfl, rfl, rfl⟩

/-- Witness instantiating C8_two_run_determinism on a concrete
three-sample session with the default stationary parameters. -/
theorem C8_two_run_determinism_witness :
    (detect id {} [0, 1, 2] 1 [some 0, some 1, some 0] [some 0, some 0, some 0] false).events
      = (detect id {} [0, 1, 2] 1 [some 0, some 1, some 0] [some 0, some 0, some 0] false).events ∧
    (detect id {} [0, 1, 2] 1 [some 0, some 1, some 0] [some 0, some 0, some 0] false).score
      = (detect id {} [0, 1, 2] 1 [some 0, some 1, some 0] [some 0, some 0, some 0] false).score :=
  ⟨(C8_two_run_determinism id {} {} [0, 1, 2] [0, 1, 2] 1 1
      [some 0, some 1, some 0] [some 0, some 1, some 0]
      [some 0, some 0, some 0] [some 0, some 0, some 0] false false
      rfl rfl rfl rfl rfl rfl).1,
    (C8_two_run_determinism id {} {} [0, 1, 2] [0, 1, 2] 1 1
      [some 0, some 1, some 0] [some 0, some 1, some 0]
      [some 0, some 0, some 0] [some 0, some 0, some 0] false false
      rfl rfl rfl rfl rfl rfl).2.1⟩
